import Mathlib

set_option maxRecDepth 4000

/-!
Verification development for the vibecheck-mcp security-scan pipeline.

The definitions below are a shallow embedding of the TypeScript sources:
the hotspot classifier and pattern registry (`core/hotspot-collector.ts`),
the prompt builder and AI-response parsing (`core/prompt-builder.ts`),
the CWE API client cache (`security-data/cwe-api.ts`), the file reader
(`core/file-reader.ts`), the npm-audit normalization (`core/npm-audit.ts`)
and the `scan_codebase` tool (`tools/scan-codebase.ts`).

JavaScript regular expressions (all used with the `i` flag, over ASCII
pattern text) are embedded as executable Boolean predicates on strings:
a plain pattern such as `/auth/i` becomes a case-insensitive substring
test, an anchored pattern such as `/\.prisma$/i` becomes a
case-insensitive suffix test, alternations are expanded into the finite
set of their branches, and `\s*` / `\s+` gaps are matched by a dedicated
combinator.  Case-insensitivity is ASCII case folding, matching the
behaviour of the `i` flag on the ASCII-only patterns of the source.
-/

/-- ASCII lower-casing of one character; models the case folding performed
by the `i` flag of the JavaScript regexes (all of which are ASCII). -/
def lowerChar (c : Char) : Char := c.toLower

/-- Lower-case a list of characters. -/
def lowerList (l : List Char) : List Char := l.map lowerChar

/-- Boolean test that the first list is a prefix of the second. -/
def listIsPrefixOf : List Char → List Char → Bool
  | [], _ => true
  | _ :: _, [] => false
  | a :: as, b :: bs => a == b && listIsPrefixOf as bs

/-- Boolean test that `needle` occurs as a contiguous substring of the
second list. -/
def listHasInfix (needle : List Char) : List Char → Bool
  | [] => listIsPrefixOf needle []
  | c :: cs => listIsPrefixOf needle (c :: cs) || listHasInfix needle cs

/-- Case-insensitive substring test: embedding of an unanchored literal
JavaScript regex such as `/auth/i` applied via `.test(s)`. -/
def icontains (needle : String) (s : String) : Bool :=
  listHasInfix (lowerList needle.toList) (lowerList s.toList)

/-- Case-insensitive suffix test: embedding of an end-anchored literal
JavaScript regex such as `/\.prisma$/i`. -/
def iendsWith (suffix : String) (s : String) : Bool :=
  listIsPrefixOf (lowerList suffix.toList).reverse (lowerList s.toList).reverse

/-- Case-sensitive substring test on strings (used for `String.includes`
style checks in the sources, which are case sensitive). -/
def containsStr (needle : String) (s : String) : Bool :=
  listHasInfix needle.toList s.toList

/-- Case-sensitive prefix test on strings (JavaScript `String.startsWith`). -/
def startsWithStr (pre : String) (s : String) : Bool :=
  listIsPrefixOf pre.toList s.toList

/-- Whitespace characters recognised by the `\s` class of the JavaScript
regexes, restricted to the ASCII range (the only range exercised here). -/
def isJsWs (c : Char) : Bool :=
  c == ' ' || c == '\t' || c == '\n' || c == '\r' || c == '\x0b' || c == '\x0c'

/-- Match, at the start of `l`, the literal `a`, then a whitespace gap
(`\s*`, or `\s+` when `oneOrMore` is set), then the literal `b`. -/
def gapMatchAt (a b : List Char) (oneOrMore : Bool) (l : List Char) : Bool :=
  listIsPrefixOf a l &&
    (let rest := l.drop a.length
     let gap := rest.takeWhile isJsWs
     (List.range (gap.length + 1)).any fun k =>
       (!oneOrMore || decide (1 ≤ k)) && listIsPrefixOf b (rest.drop k))

/-- Match `a`, a whitespace gap, then `b` anywhere inside the list. -/
def gapMatch (a b : List Char) (oneOrMore : Bool) : List Char → Bool
  | [] => gapMatchAt a b oneOrMore []
  | c :: cs => gapMatchAt a b oneOrMore (c :: cs) || gapMatch a b oneOrMore cs

/-- Embedding of a JavaScript regex of the shape `/a\s*b/i` (or `/a\s+b/i`
when `oneOrMore` is set), e.g. `/Request\s*,/i` or
`/allow\s+read/i`, applied via `.test(s)`. -/
def icontainsGap (a b : String) (oneOrMore : Bool) (s : String) : Bool :=
  gapMatch (lowerList a.toList) (lowerList b.toList) oneOrMore (lowerList s.toList)

/-- Disjunction of several pattern predicates (expansion of a regex
alternation into its finitely many branches). -/
def anyOf (ps : List (String → Bool)) (s : String) : Bool :=
  ps.any fun p => p s

/-! The data model of `types/hotspot.ts`. -/

/-- The six security categories of `types/hotspot.ts` (`HotspotCategory`). -/
inductive HotspotCategory where
  | auth
  | api
  | databaseRules
  | secretsEnv
  | dependencies
  | dataFlow
deriving DecidableEq, Repr

/-- The three priorities of `types/hotspot.ts` (`HotspotPriority`). -/
inductive HotspotPriority where
  | critical
  | high
  | medium
deriving DecidableEq, Repr

/-- The string name of a category, as it appears in the TypeScript union
type and in prompts (`${hotspot.category}`). -/
def categoryName : HotspotCategory → String
  | .auth => "auth"
  | .api => "api"
  | .databaseRules => "database-rules"
  | .secretsEnv => "secrets-env"
  | .dependencies => "dependencies"
  | .dataFlow => "data-flow"

/-- A scanned file record (`ParsedFile` in `types/index.ts`): relative
path, full content, byte size and lower-cased extension. -/
structure ParsedFile where
  path : String
  content : String
  size : Nat
  extension : String
deriving DecidableEq, Repr

/-- A category pattern row (`CategoryPattern`): the regexes are embedded
as Boolean predicates on strings. -/
structure CategoryPattern where
  category : HotspotCategory
  priority : HotspotPriority
  description : String
  pathPatterns : List (String → Bool)
  contentPatterns : List (String → Bool)

/-- A skip pattern row (`SkipPattern`). -/
structure SkipPattern where
  name : String
  pattern : String → Bool
  reason : String

/-- A security hotspot (`SecurityHotspot`). -/
structure SecurityHotspot where
  category : HotspotCategory
  files : List ParsedFile
  priority : HotspotPriority
  reason : String
deriving DecidableEq, Repr

/-- The result of a classification run (`HotspotAnalysis`). -/
structure HotspotAnalysis where
  hotspots : List SecurityHotspot
  skippedFiles : List String
  totalFiles : Nat
  securityRelevantFiles : Nat
deriving DecidableEq, Repr

/-! The pattern registry of `core/hotspot-collector.ts`, regex by regex.
Each Lean predicate is the embedding of the JavaScript regex named in the
comment next to it. -/

/-- The `CATEGORY_PATTERNS` table of `core/hotspot-collector.ts`. -/
def CATEGORY_PATTERNS : List CategoryPattern := [
  { category := .auth, priority := .critical,
    description := "Authentication, authorization, and session management",
    pathPatterns := [
      icontains "auth",        -- /auth/i
      icontains "login",       -- /login/i
      icontains "session",     -- /session/i
      icontains "middleware",  -- /middleware/i
      icontains "guard",       -- /guard/i
      icontains "passport",    -- /passport/i
      icontains "oauth",       -- /oauth/i
      icontains "jwt",         -- /jwt/i
      icontains "token"],      -- /token/i
    contentPatterns := [
      icontains "verifyToken", icontains "getServerSession",
      icontains "useSession", icontains "signIn", icontains "signOut",
      icontains "authenticate", icontains "authorize",
      icontains "isAuthenticated", icontains "currentUser",
      icontains "getUser", icontains "requireAuth",
      icontains "checkPermission", icontains "bcrypt", icontains "argon2",
      icontains "password", icontains "credential"] },
  { category := .api, priority := .critical,
    description := "API routes and endpoints",
    pathPatterns := [
      icontains "/api/",                                      -- /\/api\//i
      anyOf [icontains "route/", icontains "routes/"],        -- /routes?\//i
      anyOf [icontains "controller/", icontains "controllers/"],  -- /controllers?\//i
      anyOf [icontains "handler/", icontains "handlers/"],    -- /handlers?\//i
      anyOf [icontains "endpoint/", icontains "endpoints/"]], -- /endpoints?\//i
    contentPatterns := [
      icontains "NextRequest",                -- /NextRequest/i
      icontains "NextResponse",               -- /NextResponse/i
      icontainsGap "Request" "," false,       -- /Request\s*,/i
      icontainsGap "Response" ")" false,      -- /Response\s*\)/i
      icontains "express()",                  -- /express\(\)/i
      anyOf [icontains "app.get", icontains "app.post", icontains "app.put",
             icontains "app.patch", icontains "app.delete"],
                                              -- /app\.(get|post|put|patch|delete)/i
      anyOf [icontains "router.get", icontains "router.post",
             icontains "router.put", icontains "router.patch",
             icontains "router.delete"],
                                              -- /router\.(get|post|put|patch|delete)/i
      icontains "createServerAction",         -- /createServerAction/i
      icontains "unstable_cache"] },          -- /unstable_cache/i
  { category := .databaseRules, priority := .critical,
    description := "Database security rules and schemas",
    pathPatterns := [
      icontains "firestore.rules",   -- /firestore\.rules/i
      icontains "storage.rules",     -- /storage\.rules/i
      icontains "database.rules",    -- /database\.rules/i
      iendsWith ".prisma",           -- /\.prisma$/i
      icontains "schema."],          -- /schema\./i
    contentPatterns := [
      anyOf [icontainsGap "allow" "read" true, icontainsGap "allow" "write" true,
             icontainsGap "allow" "create" true, icontainsGap "allow" "update" true,
             icontainsGap "allow" "delete" true],
                                     -- /allow\s+(read|write|create|update|delete)/i
      icontains "rules_version",     -- /rules_version/i
      icontains "@@map",             -- /@@map/i
      icontains "createClient",      -- /createClient/i
      icontains "supabase",          -- /supabase/i
      icontains "RLS"] },            -- /RLS/i
  { category := .secretsEnv, priority := .high,
    description := "Environment variables and secrets",
    pathPatterns := [
      icontains ".env",              -- /\.env/i
      icontains "config.",           -- /config\./i
      anyOf [icontains "secret.", icontains "secrets."],          -- /secrets?\./i
      anyOf [icontains "credential.", icontains "credentials."]], -- /credentials?\./i
    contentPatterns := [
      icontains "process.env", icontains "import.meta.env",
      icontains "NEXT_PUBLIC_", icontains "VITE_", icontains "REACT_APP_",
      icontains "API_KEY", icontains "SECRET", icontains "PASSWORD",
      icontains "TOKEN", icontains "PRIVATE_KEY", icontains "DATABASE_URL",
      icontains "MONGODB_URI", icontains "REDIS_URL"] },
  { category := .dependencies, priority := .high,
    description := "Package dependencies",
    pathPatterns := [iendsWith "package.json"],  -- /package\.json$/i
    contentPatterns := [] },
  { category := .dataFlow, priority := .medium,
    description := "User input handling and data flow",
    pathPatterns := [],
    contentPatterns := [
      icontains "req.body", icontains "req.query", icontains "req.params",
      icontains "request.json()",    -- /request\.json\(\)/i
      icontains "formData", icontains "searchParams",
      icontains "useSearchParams", icontains "params.",
      icontains "dangerouslySetInnerHTML", icontains "innerHTML",
      icontains "eval(",             -- /eval\(/i
      icontains "new Function(",     -- /new Function\(/i
      icontains "exec(",             -- /exec\(/i
      icontains "spawn(",            -- /spawn\(/i
      icontains "child_process"] }]

/-- The `SKIP_PATTERNS` table of `core/hotspot-collector.ts`, in source
order (first match wins). -/
def SKIP_PATTERNS : List SkipPattern := [
  { name := "node_modules", pattern := icontains "node_modules",
    reason := "Third-party dependencies" },
  { name := "dist", pattern := icontains "/dist/", reason := "Build output" },
  { name := "build", pattern := icontains "/build/", reason := "Build output" },
  { name := ".next", pattern := icontains "/.next/",
    reason := "Next.js build output" },
  { name := "coverage", pattern := icontains "/coverage/",
    reason := "Test coverage" },
  { name := "test files",
    pattern := anyOf [iendsWith ".test.ts", iendsWith ".test.tsx",
      iendsWith ".test.js", iendsWith ".test.jsx", iendsWith ".spec.ts",
      iendsWith ".spec.tsx", iendsWith ".spec.js", iendsWith ".spec.jsx"],
    reason := "Test files" },       -- /\.(test|spec)\.(ts|tsx|js|jsx)$/i
  { name := "__tests__", pattern := icontains "__tests__",
    reason := "Test directory" },
  { name := "storybook",
    pattern := anyOf [iendsWith ".stories.ts", iendsWith ".stories.tsx",
      iendsWith ".stories.js", iendsWith ".stories.jsx"],
    reason := "Storybook files" },  -- /\.stories\.(ts|tsx|js|jsx)$/i
  { name := "type declarations", pattern := iendsWith ".d.ts",
    reason := "Type declarations only" },
  { name := "CSS",
    pattern := anyOf [iendsWith ".css", iendsWith ".scss",
      iendsWith ".sass", iendsWith ".less"],
    reason := "Stylesheets" },      -- /\.(css|scss|sass|less)$/i
  { name := "images",
    pattern := anyOf [iendsWith ".png", iendsWith ".jpg", iendsWith ".jpeg",
      iendsWith ".gif", iendsWith ".svg", iendsWith ".ico",
      iendsWith ".webp"],
    reason := "Images" },
  { name := "fonts",
    pattern := anyOf [iendsWith ".woff", iendsWith ".woff2",
      iendsWith ".ttf", iendsWith ".eot", iendsWith ".otf"],
    reason := "Fonts" },
  { name := "markdown", pattern := anyOf [iendsWith ".md", iendsWith ".mdx"],
    reason := "Documentation" },    -- /\.(md|mdx)$/i
  { name := "UI components", pattern := icontains "components/ui/",
    reason := "UI component library" },
  { name := "public assets", pattern := icontains "/public/",
    reason := "Static assets" },
  { name := "lock files",
    pattern := anyOf [icontains "package-lock", icontains "yarn.lock",
      icontains "pnpm-lock"],
    reason := "Lock files" }]       -- /(package-lock|yarn\.lock|pnpm-lock)/i

/-! The hotspot classifier of `core/hotspot-collector.ts`. -/

/-- Embedding of `shouldSkipFile`: first matching skip pattern, if any. -/
def shouldSkipFile (file : ParsedFile) : Option SkipPattern :=
  SKIP_PATTERNS.find? fun p => p.pattern file.path

/-- Embedding of `categorizeFile`: every category whose path patterns
match the path or whose content patterns match the content, in table
order. -/
def categorizeFile (file : ParsedFile) : List HotspotCategory :=
  CATEGORY_PATTERNS.foldl
    (fun acc pat =>
      if (pat.pathPatterns.any fun p => p file.path)
          || (pat.contentPatterns.any fun p => p file.content) then
        acc ++ [pat.category]
      else acc) []

/-- Embedding of `getCategoryPriority`. -/
def getCategoryPriority (category : HotspotCategory) : HotspotPriority :=
  ((CATEGORY_PATTERNS.find? fun p => p.category = category).map
    (fun p => p.priority)).getD .medium

/-- Embedding of `getCategoryDescription`. -/
def getCategoryDescription (category : HotspotCategory) : String :=
  ((CATEGORY_PATTERNS.find? fun p => p.category = category).map
    (fun p => p.description)).getD (categoryName category)

/-- One entry of the insertion-ordered `hotspotMap` of
`collectSecurityHotspots`: a category together with its file bucket. -/
abbrev HotspotMap := List (HotspotCategory × List ParsedFile)

/-- Push a file onto a category's bucket, creating the bucket at the end
of the map when the category is new; models `Map.get(...).push(file)` /
`Map.set` with the insertion-order iteration of a JavaScript `Map`. -/
def mapPush : HotspotMap → HotspotCategory → ParsedFile → HotspotMap
  | [], c, f => [(c, [f])]
  | (d, l) :: m, c, f =>
    if d = c then (d, l ++ [f]) :: m else (d, l) :: mapPush m c f

/-- Push a file onto the buckets of all of its categories, in category
order: the inner `for (const category of categories)` loop of
`collectSecurityHotspots`. -/
def pushAll (m : HotspotMap) (cs : List HotspotCategory) (f : ParsedFile) :
    HotspotMap :=
  cs.foldl (fun m c => mapPush m c f) m

/-- One iteration of the main loop of `collectSecurityHotspots`: skip the
file (recording its path) or push it onto the bucket of each of its
categories. -/
def collectStep (acc : HotspotMap × List String) (file : ParsedFile) :
    HotspotMap × List String :=
  match shouldSkipFile file with
  | some _ => (acc.1, acc.2 ++ [file.path])
  | none => (pushAll acc.1 (categorizeFile file) file, acc.2)

/-- The numeric priority order of `collectSecurityHotspots`
(`priorityOrder`): critical 0, high 1, medium 2. -/
def priRank : HotspotPriority → Nat
  | .critical => 0
  | .high => 1
  | .medium => 2

/-- Insert an element into a list sorted by `rank`, after every element of
rank less than or equal to its own. -/
def insertByRank {α : Type} (rank : α → Nat) (a : α) : List α → List α
  | [] => [a]
  | b :: bs =>
    if rank a < rank b then a :: b :: bs else b :: insertByRank rank a bs

/-- Stable sort by a numeric rank; models `Array.prototype.sort` with the
comparator `(a, b) => rank(a) - rank(b)` (stable as required by
ECMAScript 2019 and later). -/
def stableSortByRank {α : Type} (rank : α → Nat) (l : List α) : List α :=
  l.foldl (fun acc a => insertByRank rank a acc) []

/-- Build a `SecurityHotspot` from one map entry, as in the
hotspot-building loop of `collectSecurityHotspots`. -/
def mkHotspot (e : HotspotCategory × List ParsedFile) : SecurityHotspot :=
  { category := e.1, files := e.2,
    priority := getCategoryPriority e.1,
    reason := getCategoryDescription e.1 }

/-- Append a string to a list if it is not already present: models
`Set.add` on a JavaScript `Set` of strings. -/
def insertUnique (acc : List String) (s : String) : List String :=
  if acc.contains s then acc else acc ++ [s]

/-- The unique-path count of `collectSecurityHotspots`
(`securityRelevantSet.size`), folding over the sorted hotspots and their
files in order. -/
def countDistinctPaths (hotspots : List SecurityHotspot) : Nat :=
  (hotspots.foldl
    (fun acc h => h.files.foldl (fun a f => insertUnique a f.path) acc)
    []).length

/-- Embedding of `collectSecurityHotspots`. -/
def collectSecurityHotspots (files : List ParsedFile) : HotspotAnalysis :=
  let grouped := files.foldl collectStep ([], [])
  let hotspots :=
    stableSortByRank (fun h => priRank h.priority) (grouped.1.map mkHotspot)
  { hotspots := hotspots,
    skippedFiles := grouped.2,
    totalFiles := files.length,
    securityRelevantFiles := countDistinctPaths hotspots }

/-- Embedding of `filterHotspots`: restrict the hotspot list to the
requested categories, leaving every other field unchanged. -/
def filterHotspots (analysis : HotspotAnalysis)
    (categories : List HotspotCategory) : HotspotAnalysis :=
  { analysis with
    hotspots := analysis.hotspots.filter fun h => categories.contains h.category }

/-! The prompt builder of `core/prompt-builder.ts`. -/

/-- Embedding of `truncateContent`: content of at most `maxChars`
characters is returned verbatim, longer content is cut at `maxChars` and
suffixed with the truncation marker. -/
def truncateContent (content : String) (maxChars : Nat) : String :=
  if content.length ≤ maxChars then content
  else String.mk (content.toList.take maxChars) ++ "\n... [truncated]"

/-- The language tag of a fenced block:
`file.extension.slice(1) || 'text'`. -/
def langTag (ext : String) : String :=
  let t := String.mk (ext.toList.drop 1)
  if t = "" then "text" else t

/-- One serialized file block of `formatFilesForPrompt`. -/
def serializeFile (f : ParsedFile) : String :=
  "\n### File: " ++ f.path ++ "\n```" ++ langTag f.extension ++ "\n"
    ++ truncateContent f.content 8000 ++ "\n```"

/-- The summary line reporting omitted files
(`\n... and ${sorted.length - parts.length} more files (truncated for
size)`), with `total` the sorted length and `k` the number of parts
already pushed. -/
def omittedLine (total k : Nat) : String :=
  "\n... and " ++ toString (total - k) ++ " more files (truncated for size)"

/-- The character length of the truncated content of a file, the amount
added to the running total by one loop iteration. -/
def truncLen (f : ParsedFile) : Nat := (truncateContent f.content 8000).length

/-- The accumulation loop of `formatFilesForPrompt`: before each file the
running total is compared against the 100000-character budget; once it
exceeds the budget a single summary line is pushed and the loop breaks. -/
def formatLoop (total : Nat) (parts : List String) (totalChars : Nat) :
    List ParsedFile → List String
  | [] => parts
  | f :: fs =>
    if totalChars > 100000 then parts ++ [omittedLine total parts.length]
    else formatLoop total (parts ++ [serializeFile f])
      (totalChars + truncLen f) fs

/-- The size-ascending sort of `formatFilesForPrompt`
(`[...files].sort((a, b) => a.size - b.size)`). -/
def sortBySize (files : List ParsedFile) : List ParsedFile :=
  stableSortByRank (fun f => f.size) files

/-- The parts list produced by `formatFilesForPrompt` before joining. -/
def formatParts (files : List ParsedFile) : List String :=
  formatLoop (sortBySize files).length [] 0 (sortBySize files)

/-- Embedding of `formatFilesForPrompt`. -/
def formatFilesForPrompt (files : List ParsedFile) : String :=
  String.intercalate "\n" (formatParts files)

/-- Embedding of `buildUserPrompt`. -/
def buildUserPrompt (hotspot : SecurityHotspot) : String :=
  "Analyze these " ++ categoryName hotspot.category
    ++ " files for security vulnerabilities:\n\n"
    ++ formatFilesForPrompt hotspot.files
    ++ "\n\nRespond with a JSON object containing your findings."

/-! A JSON value model and parser, embedding the behaviour of the host
`JSON.parse` as used by `parseAIResponse` (and by `getPackageJson`).
Numbers are kept as their lexemes: none of the verified properties
depends on numeric values, only on zero-ness for truthiness. -/

/-- A parsed JSON value. -/
inductive Json where
  | null
  | bool (b : Bool)
  | num (lexeme : String)
  | str (s : String)
  | arr (elems : List Json)
  | obj (fields : List (String × Json))

/-- JSON insignificant whitespace (space, tab, line feed, carriage
return). -/
def skipWsJson : List Char → List Char
  | [] => []
  | c :: cs =>
    if c == ' ' || c == '\t' || c == '\n' || c == '\r' then skipWsJson cs
    else c :: cs

/-- Value of a hexadecimal digit, by code point ranges. -/
def hexVal (c : Char) : Option Nat :=
  let n := c.toNat
  if 48 ≤ n && n ≤ 57 then some (n - 48)
  else if 97 ≤ n && n ≤ 102 then some (n - 87)
  else if 65 ≤ n && n ≤ 70 then some (n - 55)
  else none

/-- The table of single-character JSON string escapes, as pairs of escape
letter and denoted character. -/
def escPairs : List (Char × Char) :=
  [('"', '"'), ('\\', '\\'), ('/', '/'), ('b', '\x08'), ('f', '\x0c'),
   ('n', '\n'), ('r', '\r'), ('t', '\t')]

/-- Single-character JSON string escapes, looked up in the table. -/
def escMap (c : Char) : Option Char :=
  (escPairs.find? fun pr => pr.1 == c).map fun pr => pr.2

/-- Parse the body of a JSON string after the opening quote, up to and
consuming the closing quote.  Fuelled: one unit of fuel is spent per
consumed character, so `length + 1` fuel never runs out.  Surrogate-pair
combination of `\u` escapes is not modelled (no verified property touches
it). -/
def parseStringBody : Nat → List Char → Option (List Char × List Char)
  | 0, _ => none
  | _, [] => none
  | fuel + 1, c :: cs =>
    if c == '"' then some ([], cs)
    else if c == '\\' then
      match cs with
      | [] => none
      | e :: cs' =>
        if e == 'u' then
          match cs' with
          | a :: b :: c2 :: d :: cs'' =>
            match hexVal a, hexVal b, hexVal c2, hexVal d with
            | some ha, some hb, some hc, some hd =>
              match parseStringBody fuel cs'' with
              | some (rest, rem) =>
                some (Char.ofNat (((ha * 16 + hb) * 16 + hc) * 16 + hd) :: rest, rem)
              | none => none
            | _, _, _, _ => none
          | _ => none
        else
          match escMap e with
          | some ch =>
            match parseStringBody fuel cs' with
            | some (rest, rem) => some (ch :: rest, rem)
            | none => none
          | none => none
    else if c.toNat < 32 then none
    else
      match parseStringBody fuel cs with
      | some (rest, rem) => some (c :: rest, rem)
      | none => none

/-- Split leading decimal digits from a list. -/
def digitSpan : List Char → List Char × List Char
  | [] => ([], [])
  | c :: cs =>
    if c.isDigit then
      let s := digitSpan cs
      (c :: s.1, s.2)
    else ([], c :: cs)

/-- Parse a JSON number lexeme (`-? int frac? exp?`), returning the
lexeme and the remaining input. -/
def parseNumberLex (cs : List Char) : Option (List Char × List Char) :=
  let (sign, afterSign) :=
    match cs with
    | '-' :: rest => (['-'], rest)
    | _ => (([] : List Char), cs)
  match afterSign with
  | [] => none
  | c :: _ =>
    if !c.isDigit then none
    else
      let (intPart, afterInt) :=
        if c == '0' then ([c], afterSign.drop 1) else digitSpan afterSign
      let (fracPart, afterFrac) :=
        match afterInt with
        | '.' :: rest =>
          let s := digitSpan rest
          if s.1 = [] then ([], afterInt) else ('.' :: s.1, s.2)
        | _ => (([] : List Char), afterInt)
      if fracPart = [] && (match afterInt with | '.' :: _ => true | _ => false) then
        none
      else
        let (expPart, afterExp) :=
          match afterFrac with
          | e :: rest =>
            if e == 'e' || e == 'E' then
              let (es, rest') :=
                match rest with
                | '+' :: r => (['+'], r)
                | '-' :: r => (['-'], r)
                | _ => (([] : List Char), rest)
              let s := digitSpan rest'
              if s.1 = [] then (([] : List Char), afterFrac)
              else (e :: (es ++ s.1), s.2)
            else (([] : List Char), afterFrac)
          | [] => (([] : List Char), afterFrac)
        some (sign ++ intPart ++ fracPart ++ expPart, afterExp)

mutual

/-- Parse one JSON value.  Fuel is spent on every nested parse; since
each nesting level consumes at least one character, `length + 1` initial
fuel never runs out on a well-formed input. -/
def parseValue : Nat → List Char → Option (Json × List Char)
  | 0, _ => none
  | fuel + 1, cs =>
    match skipWsJson cs with
    | [] => none
    | c :: rest =>
      if c == '"' then
        match parseStringBody (rest.length + 1) rest with
        | some (body, rem) => some (.str (String.mk body), rem)
        | none => none
      else if c == '\x7b' then
        match skipWsJson rest with
        | '\x7d' :: rem => some (.obj [], rem)
        | other => parseMembers fuel other
      else if c == '[' then
        match skipWsJson rest with
        | ']' :: rem => some (.arr [], rem)
        | other => parseElems fuel other
      else if listIsPrefixOf "true".toList (c :: rest) then
        some (.bool true, (c :: rest).drop 4)
      else if listIsPrefixOf "false".toList (c :: rest) then
        some (.bool false, (c :: rest).drop 5)
      else if listIsPrefixOf "null".toList (c :: rest) then
        some (.null, (c :: rest).drop 4)
      else
        match parseNumberLex (c :: rest) with
        | some (lex, rem) => some (.num (String.mk lex), rem)
        | none => none

/-- Parse one or more `"key": value` members followed by `,` or the
closing brace. -/
def parseMembers : Nat → List Char → Option (Json × List Char)
  | 0, _ => none
  | fuel + 1, cs =>
    match skipWsJson cs with
    | [] => none
    | c :: rest =>
      if c == '"' then
        match parseStringBody (rest.length + 1) rest with
        | some (key, afterKey) =>
          match skipWsJson afterKey with
          | ':' :: afterColon =>
            match parseValue fuel afterColon with
            | some (v, afterVal) =>
              match skipWsJson afterVal with
              | ',' :: afterComma =>
                match parseMembers fuel afterComma with
                | some (.obj fields, rem) =>
                  some (.obj ((String.mk key, v) :: fields), rem)
                | _ => none
              | '\x7d' :: rem => some (.obj [(String.mk key, v)], rem)
              | _ => none
            | none => none
          | _ => none
        | none => none
      else none

/-- Parse one or more array elements followed by `,` or the closing
bracket. -/
def parseElems : Nat → List Char → Option (Json × List Char)
  | 0, _ => none
  | fuel + 1, cs =>
    match parseValue fuel cs with
    | some (v, afterVal) =>
      match skipWsJson afterVal with
      | ',' :: afterComma =>
        match parseElems fuel afterComma with
        | some (.arr elems, rem) => some (.arr (v :: elems), rem)
        | _ => none
      | ']' :: rem => some (.arr [v], rem)
      | _ => none
    | none => none

end

/-- Embedding of `JSON.parse` as a total function: `some` on success,
`none` where the host function would throw. -/
def jsonParse (s : String) : Option Json :=
  match parseValue ((s.length + 1) * 2) s.toList with
  | some (j, rem) => if skipWsJson rem = [] then some j else none
  | none => none

/-- Property lookup on a JSON object: last binding of a key wins, as for
duplicate keys in a JavaScript object; `none` models `undefined`. -/
def objLookup (fields : List (String × Json)) (key : String) : Option Json :=
  fields.foldl (fun acc kv => if kv.1 = key then some kv.2 else acc) none

/-- Property access `j.key` on an arbitrary JSON value; `none` models
`undefined`. -/
def jsonGet (j : Json) (key : String) : Option Json :=
  match j with
  | .obj fields => objLookup fields key
  | _ => none

/-- Whether every digit of the mantissa of a number lexeme is zero, so
that the denoted JavaScript number is `0` (and hence falsy). -/
def numLexIsZero (lex : String) : Bool :=
  (lex.toList.takeWhile fun c => c != 'e' && c != 'E').all
    fun c => !c.isDigit || c == '0'

/-- JavaScript truthiness of a JSON value. -/
def jsTruthy : Json → Bool
  | .null => false
  | .bool b => b
  | .str s => s != ""
  | .num lex => !numLexIsZero lex
  | .arr _ => true
  | .obj _ => true

/-- The greedy brace extraction of `parseAIResponse`
(`response.match(/\{[\s\S]*\}/)`): the substring from the first opening
brace to the last closing brace, when the former precedes the latter. -/
def extractJsonCandidate (s : String) : Option String :=
  let cs := s.toList
  let i := (cs.takeWhile fun c => c != '\x7b').length
  let tailLen := (cs.reverse.takeWhile fun c => c != '\x7d').length
  if tailLen < cs.length && i + tailLen + 1 ≤ cs.length then
    some (String.mk ((cs.drop i).take (cs.length - tailLen - i)))
  else none

/-- The parsed shape returned by `parseAIResponse` (`AISecurityResponse`).
The findings entries are kept as raw JSON values: the source casts them
without validation. -/
structure AISecurityResponse where
  findings : List Json
  summary : Json

/-! The CWE API client of `security-data/cwe-api.ts`.  The `fetch` call
and its possible failures are modelled by an explicit outcome value; the
module-level cache is threaded as explicit state.  The embedded step
function is total: the branches where the source throws inside the `try`
are exactly the branches the source's `catch` maps to `null`. -/

/-- The normalized CWE record (`CWEData` of `security-data/types.ts`). -/
structure CWEData where
  id : String
  name : String
  description : String
  extendedDescription : Option String
  mitigations : List String
  detectionMethods : List String
  examples : List String
  relatedWeaknesses : List String
  applicablePlatforms : List String
deriving DecidableEq, Repr

/-- The `Applicable_Platforms` field of the remote payload: two optional
lists of `{ Name }` records, flattened to their name strings. -/
structure CWEPlatforms where
  Language : Option (List String)
  Technology : Option (List String)
deriving DecidableEq, Repr

/-- The remote payload shape (`CWEApiResponse`).  Each nested
`{ X: Array<{ Y: string }> }` wrapper is flattened to the list of its
leaf strings, since the wrapper carries exactly that one field. -/
structure CWEApiResponse where
  ID : String
  Name : String
  Description : Option String
  Extended_Description : Option String
  Potential_Mitigations : Option (List String)
  Detection_Methods : Option (List String)
  Demonstrative_Examples : Option (List String)
  Related_Weaknesses : Option (List String)
  Applicable_Platforms : Option CWEPlatforms
deriving DecidableEq, Repr

/-- Embedding of `transformCWEResponse`: flatten each optional nested
array, dropping entries whose leaf string is empty (the source guards
each push with a truthiness check). -/
def transformCWEResponse (data : CWEApiResponse) : CWEData :=
  { id := "CWE-" ++ data.ID,
    name := data.Name,
    description := data.Description.getD "",
    extendedDescription := data.Extended_Description,
    mitigations := (data.Potential_Mitigations.getD []).filter fun s => s != "",
    detectionMethods := (data.Detection_Methods.getD []).filter fun s => s != "",
    examples := (data.Demonstrative_Examples.getD []).filter fun s => s != "",
    relatedWeaknesses :=
      ((data.Related_Weaknesses.getD []).filter fun s => s != "").map
        fun r => "CWE-" ++ r,
    applicablePlatforms :=
      (match data.Applicable_Platforms with
       | some p => (p.Language.getD []).filter fun s => s != ""
       | none => [])
      ++
      (match data.Applicable_Platforms with
       | some p => (p.Technology.getD []).filter fun s => s != ""
       | none => []) }

/-- The identifier normalization of `fetchCWE`: replace one leading
case-insensitive match of the anchored regex `^CWE-` with the empty
string. -/
def stripCwePrefixCI (s : String) : String :=
  if lowerList (s.toList.take 4) = "cwe-".toList then
    String.mk (s.toList.drop 4)
  else s

/-- The cache key of `fetchCWE` for an input identifier. -/
def normalizeCweKey (cweId : String) : String :=
  "CWE-" ++ stripCwePrefixCI cweId

/-- The CWE cache, modelling the module-level `Map<string, CWEData>`. -/
abbrev CweCache := List (String × CWEData)

/-- Lookup in the cache (`Map.get` / `Map.has`). -/
def cacheLookup : CweCache → String → Option CWEData
  | [], _ => none
  | (k, v) :: rest, key => if k = key then some v else cacheLookup rest key

/-- Store in the cache (`Map.set`): overwrite an existing key, append a
new one. -/
def cacheSet : CweCache → String → CWEData → CweCache
  | [], key, v => [(key, v)]
  | (k, w) :: rest, key, v =>
    if k = key then (k, v) :: rest else (k, w) :: cacheSet rest key v

/-- The possible outcomes of the single `fetch` of `fetchCWE`. -/
inductive FetchOutcome where
  | success (data : CWEApiResponse)
  | notFound
  | httpError (status : Nat)
  | networkError
  | malformedBody
deriving DecidableEq, Repr

/-- Embedding of one `fetchCWE` call: returns the result, the updated
cache, and whether an external call was made.  `notFound` is the 404
branch; `httpError`, `networkError` and `malformedBody` are the branches
where the source throws and the `catch` returns `null`. -/
def fetchCWEModel (cache : CweCache) (cweId : String) (outcome : FetchOutcome) :
    Option CWEData × CweCache × Bool :=
  let cacheKey := normalizeCweKey cweId
  match cacheLookup cache cacheKey with
  | some d => (some d, cache, false)
  | none =>
    match outcome with
    | .success data =>
      (some (transformCWEResponse data),
       cacheSet cache cacheKey (transformCWEResponse data), true)
    | .notFound => (none, cache, true)
    | .httpError _ => (none, cache, true)
    | .networkError => (none, cache, true)
    | .malformedBody => (none, cache, true)

/-- Embedding of `parseAIResponse`. -/
def parseAIResponse (response : String) : AISecurityResponse :=
  match extractJsonCandidate response with
  | none => { findings := [], summary := .str "Could not parse AI response" }
  | some t =>
    match jsonParse t with
    | none =>
      { findings := [], summary := .str "Could not parse AI response as JSON" }
    | some j =>
      { findings :=
          match jsonGet j "findings" with
          | some (.arr xs) => xs
          | _ => [],
        summary :=
          match jsonGet j "summary" with
          | some v => if jsTruthy v then v else .str "Analysis complete"
          | none => .str "Analysis complete" }

/-! The file reader of `core/file-reader.ts`.  The file system is
modelled as an explicit tree of named entries; the recursive directory
walk is embedded with the same include/skip checks, file cap and
relative-path bookkeeping.  The accumulated `pre` argument is the path of
the current directory relative to the scan root, so `joinRel pre name`
equals the source's `relative(basePath, join(dirPath, entry.name))`. -/

/-- Lower-case an ASCII string (JavaScript `toLowerCase` on the ASCII
inputs used here). -/
def lowerStr (s : String) : String := String.mk (lowerList s.toList)

/-- Upper-case an ASCII string (JavaScript `toUpperCase`). -/
def upperStr (s : String) : String := String.mk (s.toList.map Char.toUpper)

/-- Case-sensitive suffix test (JavaScript `String.endsWith`). -/
def endsWithStr (suffix s : String) : Bool :=
  listIsPrefixOf suffix.toList.reverse s.toList.reverse

/-- The final path segment: `filePath.split('/').pop()` (empty when the
path ends in a slash or is empty). -/
def basenameOf (p : String) : String :=
  String.mk ((p.toList.reverse.takeWhile fun c => c != '/').reverse)

/-- Node's `path.extname`: the substring of the basename from its last
dot, or empty when the basename has no dot or only a leading dot. -/
def extnameOf (p : String) : String :=
  let b := (basenameOf p).toList
  let afterLen := (b.reverse.takeWhile fun c => c != '.').length
  if afterLen = b.length then ""
  else if b.length - afterLen - 1 = 0 then ""
  else String.mk (b.drop (b.length - afterLen - 1))

/-- The `CODE_EXTENSIONS` set of `core/file-reader.ts`. -/
def CODE_EXTENSIONS : List String := [
  ".ts", ".tsx", ".js", ".jsx", ".mjs", ".cjs",
  ".json", ".yaml", ".yml",
  ".env", ".env.local", ".env.development", ".env.production",
  ".prisma", ".graphql", ".gql",
  ".rules",
  ".sql",
  ".py", ".rb", ".go", ".java", ".rs", ".php"]

/-- The `SKIP_DIRECTORIES` set of `core/file-reader.ts`. -/
def SKIP_DIRECTORIES : List String := [
  "node_modules", ".git", ".next", ".nuxt", "dist", "build", "out",
  "coverage", ".turbo", ".cache", "__pycache__", "vendor", ".idea",
  ".vscode"]

/-- The `SKIP_FILES` set of `core/file-reader.ts`. -/
def SKIP_FILES : List String := [
  "package-lock.json", "yarn.lock", "pnpm-lock.yaml", "bun.lockb",
  ".DS_Store"]

/-- The 1 MiB size cap (`MAX_FILE_SIZE`). -/
def MAX_FILE_SIZE : Nat := 1024 * 1024

/-- Embedding of `shouldIncludeFile`. -/
def shouldIncludeFile (filePath : String) (size : Nat) : Bool :=
  let ext := lowerStr (extnameOf filePath)
  let fileName := basenameOf filePath
  if SKIP_FILES.contains fileName then false
  else if size > MAX_FILE_SIZE then false
  else if CODE_EXTENSIONS.contains ext then true
  else if startsWithStr ".env" fileName || fileName == ".gitignore" then true
  else if ext == "" &&
      (containsStr "config" fileName || containsStr "rc" fileName
        || fileName == "Dockerfile" || fileName == "Makefile") then true
  else false

/-- A file-system entry: a readable file with its content and byte size,
or a directory with its children. -/
inductive FsEntry where
  | file (name : String) (content : String) (size : Nat)
  | dir (name : String) (entries : List FsEntry)

/-- Join a relative directory prefix with an entry name. -/
def joinRel (pre name : String) : String :=
  if pre = "" then name else pre ++ "/" ++ name

mutual

/-- Process one directory entry of `readDirectoryRecursive`: skip listed
directories, recurse into others, and push an included file onto the
accumulator. -/
def readEntry (e : FsEntry) (pre : String) (files : List ParsedFile)
    (maxFiles : Nat) : List ParsedFile :=
  match e with
  | .file name content size =>
    let rel := joinRel pre name
    if shouldIncludeFile rel size then
      files ++ [{ path := rel, content := content, size := size,
                  extension := lowerStr (extnameOf rel) }]
    else files
  | .dir name entries =>
    if SKIP_DIRECTORIES.contains name then files
    else readEntriesLoop entries (joinRel pre name) files maxFiles

/-- The entry loop of `readDirectoryRecursive`, breaking once the file
cap is reached. -/
def readEntriesLoop (entries : List FsEntry) (pre : String)
    (files : List ParsedFile) (maxFiles : Nat) : List ParsedFile :=
  match entries with
  | [] => files
  | e :: rest =>
    if maxFiles ≤ files.length then files
    else readEntriesLoop rest pre (readEntry e pre files maxFiles) maxFiles

end

/-- Embedding of `readFilesFromPath` over a file-system tree: a single
file is returned as-is (keyed by its basename, with no include check), a
directory is walked recursively with the default cap of 500 files. -/
def readFilesFromTree : FsEntry → List ParsedFile
  | .file name content size =>
    let b := basenameOf name
    [{ path := if b = "" then name else b, content := content, size := size,
       extension := lowerStr (extnameOf name) }]
  | .dir _ entries => readEntriesLoop entries "" [] 500

/-- A direct `{path, content}` input pair of the scan tool. -/
structure RawFile where
  path : String
  content : String
deriving DecidableEq, Repr

/-- Embedding of `parseFileInputs`. -/
def parseFileInputs (files : List RawFile) : List ParsedFile :=
  files.map fun f =>
    { path := f.path, content := f.content, size := f.content.length,
      extension := lowerStr (extnameOf f.path) }

/-- Embedding of `getPackageJson`: the first file named `package.json`
(exactly or by `/package.json` suffix), parsed as JSON; `none` when the
file is missing or fails to parse. -/
def getPackageJson (files : List ParsedFile) : Option Json :=
  match files.find? fun f =>
      f.path == "package.json" || endsWithStr "/package.json" f.path with
  | none => none
  | some f => jsonParse f.content

/-! The `scan_codebase` tool of `tools/scan-codebase.ts`. -/

/-- The detected project context (`ProjectContext`). -/
structure ProjectContext where
  hasPackageJson : Bool
  hasPackageLock : Bool
  framework : Option String
  database : Option String
  authProvider : Option String
  isTypeScript : Bool
deriving DecidableEq, Repr

/-- The declared dependencies of the parsed `package.json`
(`packageJson.dependencies || {}`).  A truthy non-object `dependencies`
value is modelled as empty: on that input the source itself faults at the
first `in` test, a path no verified claim exercises. -/
def depsOf (files : List ParsedFile) : List (String × Json) :=
  match getPackageJson files with
  | some (.obj fields) =>
    match objLookup fields "dependencies" with
    | some (.obj depFields) => depFields
    | _ => []
  | _ => []

/-- Key membership in the dependency record (`'name' in deps`). -/
def depsHave (deps : List (String × Json)) (k : String) : Bool :=
  deps.any fun kv => kv.1 == k

/-- Embedding of `detectProjectContext`. -/
def detectProjectContext (files : List ParsedFile) : ProjectContext :=
  let pj := getPackageJson files
  let deps := depsOf files
  { hasPackageJson := match pj with | some j => jsTruthy j | none => false,
    hasPackageLock := files.any fun f =>
      containsStr "package-lock.json" f.path || containsStr "yarn.lock" f.path
        || containsStr "pnpm-lock.yaml" f.path,
    framework :=
      if depsHave deps "next" then some "nextjs"
      else if depsHave deps "express" then some "express"
      else if depsHave deps "@nestjs/core" then some "nestjs"
      else if depsHave deps "fastify" then some "fastify"
      else if depsHave deps "react" then some "react"
      else none,
    database :=
      if depsHave deps "firebase" || depsHave deps "@firebase/app" then
        some "firebase"
      else if depsHave deps "@supabase/supabase-js" then some "supabase"
      else if depsHave deps "mongodb" || depsHave deps "mongoose" then
        some "mongodb"
      else if depsHave deps "pg" || depsHave deps "@prisma/client" then
        some "postgresql"
      else if depsHave deps "mysql2" then some "mysql"
      else none,
    authProvider :=
      if depsHave deps "@clerk/nextjs" then some "clerk"
      else if depsHave deps "auth0" || depsHave deps "@auth0/nextjs-auth0" then
        some "auth0"
      else if depsHave deps "next-auth" then some "nextauth"
      else if depsHave deps "firebase" then some "firebase"
      else if depsHave deps "@supabase/supabase-js" then some "supabase"
      else none,
    isTypeScript := files.any fun f =>
      f.extension == ".ts" || f.extension == ".tsx" }

/-- The input of `executeScanCodebase`: an optional root path (modelled
by the tree it denotes) or an optional direct file list. -/
structure ScanInputModel where
  pathTree : Option FsEntry
  files : Option (List RawFile)

/-- The file-gathering step of `executeScanCodebase`: the path branch
takes precedence, a missing or empty direct list is an input error. -/
def scanSourceFiles (input : ScanInputModel) :
    Except String (List ParsedFile) :=
  match input.pathTree with
  | some t => .ok (readFilesFromTree t)
  | none =>
    match input.files with
    | some fs =>
      if 0 < fs.length then .ok (parseFileInputs fs)
      else .error "Either path or files must be provided"
    | none => .error "Either path or files must be provided"

/-- The gathered files after the emptiness check of
`executeScanCodebase`. -/
def scanFilesChecked (input : ScanInputModel) :
    Except String (List ParsedFile) :=
  match scanSourceFiles input with
  | .error e => .error e
  | .ok fs => if fs.length = 0 then .error "No files found to scan" else .ok fs

/-- Whether `executeScanCodebase` reaches the `runNpmAudit` call: a base
path was supplied and the detected context reports a lock file
(`if (basePath && projectContext.hasPackageLock)`); an input error means
the call is never reached. -/
def scanAuditInvoked (input : ScanInputModel) : Bool :=
  match scanFilesChecked input with
  | .error _ => false
  | .ok fs => input.pathTree.isSome && (detectProjectContext fs).hasPackageLock

/-! The npm-audit normalization of `core/npm-audit.ts`. -/

/-- The finding severity scale (`Severity` of `types/index.ts`). -/
inductive Severity where
  | critical
  | high
  | medium
  | low
  | info
deriving DecidableEq, Repr

/-- The npm audit severity scale. -/
inductive NpmSeverity where
  | info
  | low
  | moderate
  | high
  | critical
deriving DecidableEq, Repr

/-- The lower-case name of an npm severity. -/
def npmSeverityName : NpmSeverity → String
  | .info => "info"
  | .low => "low"
  | .moderate => "moderate"
  | .high => "high"
  | .critical => "critical"

/-- Embedding of `mapSeverity` (the `default: 'low'` arm of the source is
unreachable over the enumerated severities). -/
def mapSeverity : NpmSeverity → Severity
  | .critical => .critical
  | .high => .high
  | .moderate => .medium
  | .low => .low
  | .info => .info

/-- The `fixAvailable` field of an npm audit entry: a Boolean flag or a
fix record. -/
inductive FixAvailable where
  | flag (b : Bool)
  | fix (name : String) (version : String) (isSemVerMajor : Bool)
deriving DecidableEq, Repr

/-- One npm audit vulnerability entry (`NpmAuditVulnerability` of
`security-data/types.ts`). -/
structure NpmAuditVulnerability where
  severity : NpmSeverity
  isDirect : Bool
  via : List String
  effects : List String
  range : String
  nodes : List String
  fixAvailable : FixAvailable
deriving DecidableEq, Repr

/-- The vulnerability count histogram of the audit metadata. -/
structure VulnCounts where
  info : Nat
  low : Nat
  moderate : Nat
  high : Nat
  critical : Nat
  total : Nat
deriving DecidableEq, Repr

/-- The all-zero histogram used by every error branch. -/
def zeroCounts : VulnCounts :=
  { info := 0, low := 0, moderate := 0, high := 0, critical := 0, total := 0 }

/-- A parsed npm audit report (`NpmAuditResult`), with the vulnerability
record as an insertion-ordered association list (`Object.entries`). -/
structure NpmAuditResult where
  auditReportVersion : Nat
  vulnerabilities : List (String × NpmAuditVulnerability)
  metadataVulnerabilities : VulnCounts
deriving DecidableEq, Repr

/-- A normalized dependency vulnerability (`DependencyVulnerability` of
`types/index.ts`). -/
structure DependencyVulnerability where
  packageName : String
  version : String
  severity : Severity
  title : String
  description : String
  cveIds : List String
  patchedVersion : Option String
deriving DecidableEq, Repr

/-- Embedding of `transformAuditResult`.  With `via` typed as a string
list the source's `Array.isArray` test is always true and its
`typeof v === 'string'` filter keeps every entry. -/
def transformAuditResult (vulnerabilities : List (String × NpmAuditVulnerability)) :
    List DependencyVulnerability :=
  vulnerabilities.map fun nv =>
    { packageName := nv.1,
      version := nv.2.range,
      severity := mapSeverity nv.2.severity,
      title := upperStr (npmSeverityName nv.2.severity) ++ ": " ++ nv.1,
      description :=
        (let joined := String.intercalate ", " nv.2.via
         if joined = "" then "Vulnerability in " ++ nv.1 else joined),
      cveIds := [],
      patchedVersion :=
        match nv.2.fixAvailable with
        | .fix _ v _ => some v
        | .flag _ => none }

/-- The audit response shape (`NpmAuditResponse`). -/
structure NpmAuditResponse where
  vulnerabilities : List DependencyVulnerability
  summary : VulnCounts
  error : Option String
deriving DecidableEq, Repr

/-- The possible outcomes of the `npm audit --json` process invocation
of `runNpmAudit`: a stderr-only success, a success whose stdout parses as
a report, a success whose stdout fails to parse (the in-`try` parse error
reaches the `catch`, which finds no `stdout` property on it), a non-zero
exit with parseable stdout, and a non-zero exit without parseable
stdout. -/
inductive AuditExecOutcome where
  | stderrOnly (stderr : String)
  | parsedOk (result : NpmAuditResult)
  | parseFail (message : String)
  | execFailParsed (result : NpmAuditResult)
  | execFailNoParse (message : String)
deriving Repr

/-- Embedding of `runNpmAudit`, with the lock-file probe and the process
invocation supplied as explicit values. -/
def runNpmAuditModel (hasLockFile : Bool) (outcome : AuditExecOutcome) :
    NpmAuditResponse :=
  if !hasLockFile then
    { vulnerabilities := [], summary := zeroCounts,
      error := some "No lock file found. Run npm install, yarn install, or pnpm install first." }
  else
    match outcome with
    | .stderrOnly stderr =>
      { vulnerabilities := [], summary := zeroCounts, error := some stderr }
    | .parsedOk r =>
      { vulnerabilities := transformAuditResult r.vulnerabilities,
        summary := r.metadataVulnerabilities, error := none }
    | .parseFail msg =>
      { vulnerabilities := [], summary := zeroCounts,
        error := some ("npm audit failed: " ++ msg) }
    | .execFailParsed r =>
      { vulnerabilities := transformAuditResult r.vulnerabilities,
        summary := r.metadataVulnerabilities, error := none }
    | .execFailNoParse msg =>
      { vulnerabilities := [], summary := zeroCounts,
        error := some ("npm audit failed: " ++ msg) }


/-! Statement vocabulary: derived notions used to state the verified
properties. -/

/-- Whether a file lands in the bucket of category `c`: it is not
skipped and `c` is among its categories. -/
def isHotFor (c : HotspotCategory) (f : ParsedFile) : Bool :=
  (shouldSkipFile f).isNone && (categorizeFile f).contains c

/-- The bucket of category `c` over a scan: the matching files in scan
order. -/
def bucketOf (c : HotspotCategory) (files : List ParsedFile) :
    List ParsedFile :=
  files.filter (isHotFor c)

/-- The index of the first file of a scan that lands in category `c`
(the length of the scan when none does). -/
def firstHotIdx (c : HotspotCategory) : List ParsedFile → Nat
  | [] => 0
  | f :: fs => if isHotFor c f then 0 else firstHotIdx c fs + 1

/-- Lookup of a category's bucket in the insertion-ordered map. -/
def lookupCat : HotspotMap → HotspotCategory → Option (List ParsedFile)
  | [], _ => none
  | (d, l) :: m, c => if d = c then some l else lookupCat m c

/-- The declaration index of a category in the `CATEGORY_PATTERNS`
table. -/
def declIdx (c : HotspotCategory) : Nat :=
  (CATEGORY_PATTERNS.map fun p => p.category).indexOf c

/-- The total length of the raw contents of a list of files. -/
def totalContentLength (files : List ParsedFile) : Nat :=
  (files.map fun f => f.content.length).sum

/-- The total length of the truncated contents of a list of files: what
the accumulation loop of `formatFilesForPrompt` adds up. -/
def tlSum (files : List ParsedFile) : Nat := (files.map truncLen).sum

/-- Sample file for the C8 witness. -/
def c8File : ParsedFile :=
  { path := "a.ts", content := "abc", size := 3, extension := ".ts" }

/-- Long sample content for the C8 witness. -/
def c8Long : String := String.mk (List.replicate 8001 'a')

/-- Sample audit report for the C10 witness. -/
def c10Report : NpmAuditResult :=
  { auditReportVersion := 2,
    vulnerabilities := [("lodash",
      { severity := .high, isDirect := true, via := ["Prototype Pollution"],
        effects := [], range := "<4.17.21", nodes := ["node_modules/lodash"],
        fixAvailable := .fix "lodash" "4.17.21" false })],
    metadataVulnerabilities :=
      { info := 0, low := 0, moderate := 0, high := 1, critical := 0,
        total := 1 } }

/-- Sample remote payload for the C5 witness. -/
def c5Resp : CWEApiResponse :=
  { ID := "79", Name := "Cross-site Scripting",
    Description := some "Improper neutralization of input",
    Extended_Description := none,
    Potential_Mitigations := some ["Encode output", ""],
    Detection_Methods := none,
    Demonstrative_Examples := none,
    Related_Weaknesses := some ["80"],
    Applicable_Platforms := some { Language := some ["JavaScript"],
                                   Technology := none } }

/-- Sample content of exactly 8000 characters for C4. -/
def c4Content : String := String.mk (List.replicate 8000 'a')

/-- Sample file for C4: 8000 characters of content, so its serialized
body is kept verbatim and adds exactly 8000 to the running total. -/
def c4File : ParsedFile :=
  { path := "big.ts", content := c4Content, size := 8000, extension := ".ts" }

/-- Thirteen such files: 104000 raw characters in total, yet every
prefix of the running total stays within the 100000 budget. -/
def c4Files : List ParsedFile := List.replicate 13 c4File

/-- The C4 counterexample hotspot. -/
def c4Hotspot : SecurityHotspot :=
  { category := .auth, files := c4Files, priority := .critical,
    reason := "Authentication, authorization, and session management" }

/-- C4, as stated by the specification: a hotspot whose total raw file
content exceeds 100000 characters always yields an omitted-files line
and strictly fewer serialized files. -/
def claimC4 (h : SecurityHotspot) : Prop :=
  100000 < totalContentLength h.files →
  ∃ k, k < (sortBySize h.files).length ∧
    formatParts h.files
      = ((sortBySize h.files).take k).map serializeFile
        ++ [omittedLine (sortBySize h.files).length k]

/-- The C4 witness hotspot: fourteen files of 8000 characters, so the
running total exceeds the budget before the last file. -/
def c4wHotspot : SecurityHotspot :=
  { category := .auth, files := List.replicate 14 c4File,
    priority := .critical,
    reason := "Authentication, authorization, and session management" }

/-- The four lock-file basenames named by the skip list of the file
reader. -/
def lockFileNames : List String :=
  ["package-lock.json", "yarn.lock", "pnpm-lock.yaml", "bun.lockb"]

/-- The substring probe of `detectProjectContext.hasPackageLock`. -/
def pathHasLockSubstr (p : String) : Bool :=
  containsStr "package-lock.json" p || containsStr "yarn.lock" p
    || containsStr "pnpm-lock.yaml" p

/-- The demo tree for the C9 witness. -/
def c9Tree : FsEntry := .dir "root" [.file "a.ts" "const x = 1" 11]

/-- The file the walker emits from the demo tree. -/
def c9DemoFile : ParsedFile :=
  { path := "a.ts", content := "const x = 1", size := 11, extension := ".ts" }

/-- The pattern test of one category row against one file. -/
def matchesPattern (pat : CategoryPattern) (f : ParsedFile) : Bool :=
  (pat.pathPatterns.any fun p => p f.path)
    || (pat.contentPatterns.any fun p => p f.content)

/-- A documentation file for the C2 witness. -/
def c2Readme : ParsedFile :=
  { path := "README.md", content := "# hi", size := 4, extension := ".md" }

/-- An authentication file for the C2 witness. -/
def c2Auth : ParsedFile :=
  { path := "auth/login.ts", content := "authenticate(", size := 13,
    extension := ".ts" }

/-- The two-file scan of the C2 witness. -/
def c2Files : List ParsedFile := [c2Readme, c2Auth]


/-! Supporting lemmas. -/

/-- The length of the truncation marker. -/
lemma marker_length : ("\n... [truncated]" : String).length = 16 := by decide

/-- The length of a string built from a character list. -/
lemma length_string_mk (l : List Char) : (String.mk l).length = l.length := rfl

/-- The length of the character list of a string. -/
lemma length_toList (s : String) : s.toList.length = s.length := rfl

/-- Length of the truncated content, below and above the cut. -/
lemma truncateContent_length_le (content : String) :
    (truncateContent content 8000).length ≤ 8000 + "\n... [truncated]".length := by
  unfold truncateContent
  split
  · next h => omega
  · next h =>
    rw [String.length_append, length_string_mk, List.length_take, length_toList]
    omega

/-- Over the cut, truncation yields exactly the cut plus the marker. -/
lemma truncateContent_of_gt (content : String) (h : 8000 < content.length) :
    truncateContent content 8000
      = String.mk (content.toList.take 8000) ++ "\n... [truncated]"
    ∧ (truncateContent content 8000).length = 8016 := by
  unfold truncateContent
  rw [if_neg (by omega)]
  refine ⟨rfl, ?_⟩
  rw [String.length_append, length_string_mk, List.length_take, length_toList,
    marker_length]
  omega

/-- Every part emitted by the format loop is an inherited part, a
serialized file of the remaining list, or an omitted-files line. -/
lemma formatLoop_mem (total : Nat) (part : String) :
    ∀ (rest : List ParsedFile) (parts : List String) (tot : Nat),
      part ∈ formatLoop total parts tot rest →
      part ∈ parts ∨ (∃ f ∈ rest, part = serializeFile f)
        ∨ ∃ m, part = omittedLine total m
  | [], parts, tot, h => Or.inl h
  | f :: fs, parts, tot, h => by
    unfold formatLoop at h
    split at h
    · rcases List.mem_append.mp h with h' | h'
      · exact Or.inl h'
      · exact Or.inr (Or.inr ⟨parts.length, List.mem_singleton.mp h'⟩)
    · rcases formatLoop_mem total part fs (parts ++ [serializeFile f]) _ h with
        h' | ⟨g, hg, he⟩ | h'
      · rcases List.mem_append.mp h' with h'' | h''
        · exact Or.inl h''
        · exact Or.inr (Or.inl ⟨f, List.mem_cons_self .., List.mem_singleton.mp h''⟩)
      · exact Or.inr (Or.inl ⟨g, List.mem_cons_of_mem _ hg, he⟩)
      · exact Or.inr (Or.inr h')

/-- C8: in every prompt produced by `buildUserPrompt`, each serialized
file body is the file's content truncated at 8000 characters: content of
length at most 8000 is kept verbatim, longer content is cut at exactly
8000 characters and suffixed with the `[truncated]` marker, and no body
exceeds 8000 characters plus the marker; every part of the serialized
file list is either such a file block or the omitted-files line. -/
theorem C8_truncation (content : String) (files : List ParsedFile) (part : String) :
    (truncateContent content 8000).length ≤ 8000 + "\n... [truncated]".length
    ∧ (content.length ≤ 8000 → truncateContent content 8000 = content)
    ∧ (8000 < content.length →
        truncateContent content 8000
          = String.mk (content.toList.take 8000) ++ "\n... [truncated]"
        ∧ (truncateContent content 8000).length = 8016)
    ∧ (part ∈ formatParts files →
        (∃ f ∈ sortBySize files, part = serializeFile f)
        ∨ ∃ m, part = omittedLine (sortBySize files).length m) := by
  refine ⟨truncateContent_length_le content, ?_, truncateContent_of_gt content, ?_⟩
  · intro h
    unfold truncateContent
    exact if_pos h
  · intro hmem
    rcases formatLoop_mem _ part _ _ _ hmem with h | h | h
    · exact absurd h (List.not_mem_nil part)
    · exact Or.inl h
    · exact Or.inr h

/-- Witness for C8 at concrete inputs: the short content is kept
verbatim, the long one is truncated to exactly 8016 characters, and the
single part of a one-file prompt is that file's block. -/
theorem C8_truncation_witness :
    ("abc" : String).length ≤ 8000
    ∧ truncateContent "abc" 8000 = "abc"
    ∧ 8000 < c8Long.length
    ∧ (truncateContent c8Long 8000).length = 8016
    ∧ serializeFile c8File ∈ formatParts [c8File]
    ∧ ((∃ f ∈ sortBySize [c8File], serializeFile c8File = serializeFile f)
        ∨ ∃ m, serializeFile c8File = omittedLine (sortBySize [c8File]).length m) := by
  have h1 : ("abc" : String).length ≤ 8000 := by decide
  have h2 : 8000 < c8Long.length := by
    rw [show c8Long.length = 8001 by
      rw [c8Long, length_string_mk, List.length_replicate]]
    omega
  have h3 : serializeFile c8File ∈ formatParts [c8File] := by decide
  exact ⟨h1, (C8_truncation "abc" [] "").2.1 h1, h2,
    ((C8_truncation c8Long [] "").2.2.1 h2).2, h3,
    (C8_truncation "" [c8File] (serializeFile c8File)).2.2.2 h3⟩

/-- C7: `filterHotspots` keeps exactly the hotspots whose category is in
the requested subset, in their original order, and leaves `totalFiles`,
`skippedFiles` and `securityRelevantFiles` unchanged. -/
theorem C7_filterHotspots (analysis : HotspotAnalysis)
    (categories : List HotspotCategory) :
    (filterHotspots analysis categories).hotspots
        = analysis.hotspots.filter (fun h => decide (h.category ∈ categories))
    ∧ (filterHotspots analysis categories).totalFiles = analysis.totalFiles
    ∧ (filterHotspots analysis categories).skippedFiles = analysis.skippedFiles
    ∧ (filterHotspots analysis categories).securityRelevantFiles
        = analysis.securityRelevantFiles := by
  refine ⟨?_, rfl, rfl, rfl⟩
  unfold filterHotspots
  simp only [List.elem_eq_mem]

/-- C10: every dependency vulnerability produced by any invocation of the
npm-audit normalization has an empty `cveIds` list. -/
theorem C10_cveIds (hasLockFile : Bool) (outcome : AuditExecOutcome)
    (v : DependencyVulnerability)
    (hv : v ∈ (runNpmAuditModel hasLockFile outcome).vulnerabilities) :
    v.cveIds = [] := by
  have htr : ∀ (l : List (String × NpmAuditVulnerability)),
      v ∈ transformAuditResult l → v.cveIds = [] := by
    intro l hl
    rcases List.mem_map.mp hl with ⟨nv, _, he⟩
    rw [← he]
  unfold runNpmAuditModel at hv
  split at hv
  · simp at hv
  · cases outcome with
    | stderrOnly s => simp at hv
    | parsedOk r => exact htr _ hv
    | parseFail m => simp at hv
    | execFailParsed r => exact htr _ hv
    | execFailNoParse m => simp at hv

/-- Witness for C10: the vulnerability normalized from a concrete report
is produced by the audit and carries no CVE identifiers. -/
theorem C10_cveIds_witness :
    (transformAuditResult c10Report.vulnerabilities).head?.isSome
    ∧ ∀ v ∈ runNpmAuditModel true (.parsedOk c10Report) |>.vulnerabilities,
        v.cveIds = [] :=
  ⟨by decide, fun v hv => C10_cveIds true (.parsedOk c10Report) v hv⟩

/-- Lookup after storing a fresh key finds the stored value. -/
lemma cacheLookup_cacheSet_self (cache : CweCache) (key : String) (v : CWEData) :
    cacheLookup (cacheSet cache key v) key = some v := by
  induction cache with
  | nil => simp [cacheSet, cacheLookup]
  | cons kv rest ih =>
    unfold cacheSet
    by_cases h : kv.1 = key
    · simp [cacheLookup, h]
    · simp [cacheLookup, h, ih]

/-- C5: the CWE fetch is total over its modelled outcomes and never
raises: a cache hit for the normalized key returns the cached record with
no external call and no cache change; on a cache miss, a 404 and every
other failure return no record and leave the cache unchanged, while a
success stores the transformed record under the normalized `CWE-<n>` key
so that every subsequent lookup of any identifier normalizing to the same
key answers from the cache with no further external call. -/
theorem C5_fetchCWE (cache : CweCache) (cweId : String) (outcome : FetchOutcome) :
    (∀ d, cacheLookup cache (normalizeCweKey cweId) = some d →
      fetchCWEModel cache cweId outcome = (some d, cache, false))
    ∧ (cacheLookup cache (normalizeCweKey cweId) = none →
        ((outcome = .notFound ∨ (∃ s, outcome = .httpError s)
            ∨ outcome = .networkError ∨ outcome = .malformedBody) →
          fetchCWEModel cache cweId outcome = (none, cache, true))
        ∧ ∀ data, outcome = .success data →
            fetchCWEModel cache cweId outcome
              = (some (transformCWEResponse data),
                 cacheSet cache (normalizeCweKey cweId) (transformCWEResponse data),
                 true)
            ∧ ∀ (cweId2 : String) (outcome2 : FetchOutcome),
                normalizeCweKey cweId2 = normalizeCweKey cweId →
                fetchCWEModel
                    (cacheSet cache (normalizeCweKey cweId)
                      (transformCWEResponse data))
                    cweId2 outcome2
                  = (some (transformCWEResponse data),
                     cacheSet cache (normalizeCweKey cweId)
                       (transformCWEResponse data),
                     false)) := by
  refine ⟨?_, ?_⟩
  · intro d hd
    simp [fetchCWEModel, hd]
  · intro hnone
    constructor
    · intro hfail
      rcases hfail with h | ⟨s, h⟩ | h | h <;>
        simp [fetchCWEModel, hnone, h]
    · intro data hdata
      subst hdata
      constructor
      · simp [fetchCWEModel, hnone]
      · intro cweId2 outcome2 hkey
        simp [fetchCWEModel, hkey, cacheLookup_cacheSet_self]

/-- Witness for C5 at concrete inputs: on an empty cache, a 404 for
`cwe-79` returns nothing and caches nothing, and a success for `CWE-79`
is cached so that a later lookup of `cwe-79` answers from the cache with
no external call. -/
theorem C5_fetchCWE_witness :
    cacheLookup [] (normalizeCweKey "cwe-79") = none
    ∧ fetchCWEModel [] "cwe-79" .notFound = (none, [], true)
    ∧ normalizeCweKey "cwe-79" = normalizeCweKey "CWE-79"
    ∧ fetchCWEModel
        (cacheSet [] (normalizeCweKey "CWE-79") (transformCWEResponse c5Resp))
        "cwe-79" .networkError
      = (some (transformCWEResponse c5Resp),
         cacheSet [] (normalizeCweKey "CWE-79") (transformCWEResponse c5Resp),
         false) := by
  have hnone : cacheLookup [] (normalizeCweKey "cwe-79") = none := by decide
  have hnone2 : cacheLookup [] (normalizeCweKey "CWE-79") = none := by decide
  have hkey : normalizeCweKey "cwe-79" = normalizeCweKey "CWE-79" := by decide
  refine ⟨hnone, ?_, hkey, ?_⟩
  · exact ((C5_fetchCWE [] "cwe-79" .notFound).2 hnone).1 (Or.inl rfl)
  · exact ((((C5_fetchCWE [] "CWE-79" (.success c5Resp)).2 hnone2).2 c5Resp rfl).2
      "cwe-79" .networkError hkey)

/-- C6: `parseAIResponse` is total over arbitrary strings; on the sample
response with surrounding prose it returns the empty findings list with
summary `ok`; whenever no brace-delimited candidate is found, or the
candidate fails to parse, it returns the empty findings list with the
corresponding diagnostic summary. -/
theorem C6_parseAIResponse :
    parseAIResponse "here you go: \x7b\"findings\": [], \"summary\": \"ok\"\x7d"
        = { findings := [], summary := .str "ok" }
    ∧ (∀ s : String, extractJsonCandidate s = none →
        parseAIResponse s
          = { findings := [], summary := .str "Could not parse AI response" })
    ∧ (∀ s t : String, extractJsonCandidate s = some t → jsonParse t = none →
        parseAIResponse s
          = { findings := [],
              summary := .str "Could not parse AI response as JSON" }) := by
  refine ⟨rfl, ?_, ?_⟩
  · intro s h
    simp [parseAIResponse, h]
  · intro s t h1 h2
    simp [parseAIResponse, h1, h2]

/-- Witness for C6 at concrete inputs: a brace-free response and a
response whose extracted candidate is not valid JSON both degrade to the
respective diagnostics. -/
theorem C6_parseAIResponse_witness :
    extractJsonCandidate "not json at all" = none
    ∧ parseAIResponse "not json at all"
        = { findings := [], summary := .str "Could not parse AI response" }
    ∧ extractJsonCandidate "xx\x7b]\x7dyy" = some "\x7b]\x7d"
    ∧ parseAIResponse "xx\x7b]\x7dyy"
        = { findings := [],
            summary := .str "Could not parse AI response as JSON" } := by
  have h1 : extractJsonCandidate "not json at all" = none := by decide
  have h2 : extractJsonCandidate "xx\x7b]\x7dyy" = some "\x7b]\x7d" := by decide
  have h3 : jsonParse "\x7b]\x7d" = none := rfl
  exact ⟨h1, C6_parseAIResponse.2.1 "not json at all" h1, h2,
    C6_parseAIResponse.2.2 "xx\x7b]\x7dyy" "\x7b]\x7d" h2 h3⟩

/-- Sum of truncated lengths over a cons. -/
lemma tlSum_cons (f : ParsedFile) (l : List ParsedFile) :
    tlSum (f :: l) = truncLen f + tlSum l := by
  simp [tlSum]

/-- The format loop serializes everything when no prefix of the running
total ever exceeds the budget. -/
lemma formatLoop_complete :
    ∀ (rest : List ParsedFile) (total : Nat) (parts : List String) (tot : Nat),
      (∀ j, j < rest.length → tot + tlSum (rest.take j) ≤ 100000) →
      formatLoop total parts tot rest = parts ++ rest.map serializeFile
  | [], total, parts, tot, _ => by simp [formatLoop]
  | f :: fs, total, parts, tot, hle => by
    have h0 : tot ≤ 100000 := by
      have := hle 0 (by simp)
      simpa [tlSum] using this
    have hle' : ∀ j, j < fs.length →
        (tot + truncLen f) + tlSum (fs.take j) ≤ 100000 := by
      intro j hj
      have := hle (j + 1) (by simpa using Nat.succ_lt_succ hj)
      rw [List.take_succ_cons, tlSum_cons] at this
      omega
    unfold formatLoop
    rw [if_neg (by omega)]
    rw [formatLoop_complete fs total (parts ++ [serializeFile f])
      (tot + truncLen f) hle']
    simp

/-- The format loop stops with a summary line at the first index where
the running total exceeds the budget. -/
lemma formatLoop_reaches :
    ∀ (rest : List ParsedFile) (total : Nat) (parts : List String) (tot k : Nat),
      k < rest.length →
      100000 < tot + tlSum (rest.take k) →
      (∀ j, j < k → tot + tlSum (rest.take j) ≤ 100000) →
      formatLoop total parts tot rest
        = parts ++ (rest.take k).map serializeFile
            ++ [omittedLine total (parts.length + k)]
  | [], total, parts, tot, k, hk, _, _ => absurd hk (by simp)
  | f :: fs, total, parts, tot, 0, hk, hgt, hle => by
    unfold formatLoop
    rw [if_pos (by simpa [tlSum] using hgt)]
    simp
  | f :: fs, total, parts, tot, k + 1, hk, hgt, hle => by
    have h0 : tot ≤ 100000 := by
      have := hle 0 (Nat.succ_pos k)
      simpa [tlSum] using this
    have hgt' : 100000 < (tot + truncLen f) + tlSum (fs.take k) := by
      rw [List.take_succ_cons, tlSum_cons] at hgt
      omega
    have hle' : ∀ j, j < k → (tot + truncLen f) + tlSum (fs.take j) ≤ 100000 := by
      intro j hj
      have := hle (j + 1) (Nat.succ_lt_succ hj)
      rw [List.take_succ_cons, tlSum_cons] at this
      omega
    unfold formatLoop
    rw [if_neg (by omega)]
    rw [formatLoop_reaches fs total (parts ++ [serializeFile f])
      (tot + truncLen f) k (by simpa using hk) hgt' hle']
    simp [List.take_succ_cons]
    congr 1
    omega

/-- Rank insertion produces a permutation of consing. -/
lemma perm_insertByRank {α : Type} (rank : α → Nat) (a : α) :
    ∀ (l : List α), List.Perm (insertByRank rank a l) (a :: l)
  | [] => List.Perm.refl _
  | b :: bs => by
    unfold insertByRank
    split
    · exact List.Perm.refl _
    · exact ((perm_insertByRank rank a bs).cons b).trans (List.Perm.swap a b bs)

/-- The stable rank sort is a permutation of its input. -/
lemma perm_stableSortByRank {α : Type} (rank : α → Nat) (l : List α) :
    List.Perm (stableSortByRank rank l) l := by
  suffices h : ∀ (l acc : List α),
      List.Perm (l.foldl (fun as a => insertByRank rank a as) acc) (acc ++ l) by
    simpa using h l []
  intro l
  induction l with
  | nil => intro acc; simp
  | cons a l ih =>
    intro acc
    refine (ih (insertByRank rank a acc)).trans ?_
    refine ((perm_insertByRank rank a acc).append_right l).trans ?_
    exact List.perm_middle.symm

/-- Sorting a constant list leaves it unchanged. -/
lemma stableSortByRank_replicate {α : Type} (rank : α → Nat) (n : Nat) (a : α) :
    stableSortByRank rank (List.replicate n a) = List.replicate n a := by
  have hp := perm_stableSortByRank rank (List.replicate n a)
  refine List.eq_replicate_iff.mpr ⟨?_, ?_⟩
  · simpa using hp.length_eq
  · intro b hb
    exact List.eq_of_mem_replicate (hp.mem_iff.mp hb)

/-- The content length of the C4 sample file. -/
lemma c4Content_length : c4Content.length = 8000 := by
  rw [c4Content, length_string_mk, List.length_replicate]

/-- The truncated length of the C4 sample file equals its raw length. -/
lemma truncLen_c4File : truncLen c4File = 8000 := by
  show (truncateContent c4Content 8000).length = 8000
  unfold truncateContent
  rw [if_pos (by rw [c4Content_length])]
  exact c4Content_length

/-- Truncated-length sum over a constant list. -/
lemma tlSum_replicate (n : Nat) (f : ParsedFile) :
    tlSum (List.replicate n f) = n * truncLen f := by
  simp [tlSum, List.map_replicate, List.sum_replicate, smul_eq_mul]

/-- C4 counterexample: thirteen files of 8000 characters total 104000 raw
characters, yet per-file truncation keeps every running total within the
budget, so all thirteen are serialized and no omitted-files line is
produced. -/
theorem C4_counterexample : ¬ claimC4 c4Hotspot := by
  intro hcl
  have hraw : 100000 < totalContentLength c4Hotspot.files := by
    have : totalContentLength c4Files = 13 * 8000 := by
      simp [totalContentLength, c4Files, List.map_replicate,
        List.sum_replicate, smul_eq_mul,
        show c4File.content.length = 8000 from c4Content_length]
    rw [show c4Hotspot.files = c4Files from rfl, this]
    omega
  obtain ⟨k, hk, heq⟩ := hcl hraw
  have hsorted : sortBySize c4Hotspot.files = List.replicate 13 c4File := by
    rw [show c4Hotspot.files = List.replicate 13 c4File from rfl]
    exact stableSortByRank_replicate _ 13 c4File
  have hform : formatParts c4Hotspot.files
      = List.replicate 13 (serializeFile c4File) := by
    rw [formatParts, hsorted]
    rw [formatLoop_complete (List.replicate 13 c4File)
      (List.replicate 13 c4File).length [] 0 ?_]
    · rw [List.map_replicate]
      simp
    · intro j hj
      rw [List.take_replicate, tlSum_replicate, truncLen_c4File]
      have : min j 13 ≤ 12 := by
        simp at hj
        omega
      omega
  rw [hform, hsorted] at heq
  have hlen := congrArg List.length heq
  rw [List.length_replicate] at hlen
  rw [List.length_append, List.length_map, List.length_take,
    List.length_replicate, List.length_singleton] at hlen
  rw [hsorted, List.length_replicate] at hk
  have hk12 : k = 12 := by omega
  subst hk12
  have hlast := congrArg List.getLast? heq
  rw [show (13 : Nat) = 12 + 1 from rfl, List.replicate_succ',
    List.getLast?_concat, List.getLast?_concat, List.length_replicate] at hlast
  have hstr := Option.some.inj hlast
  have hdata : (serializeFile c4File).data.take 2
      = (omittedLine (12 + 1) 12).data.take 2 := by rw [hstr]
  have hser : (serializeFile c4File).data.take 2 = ['\n', '#'] := by
    simp only [serializeFile, String.data_append, List.append_assoc]
    rw [List.take_append_of_le_length (by decide)]
    decide
  have homit : (omittedLine (12 + 1) 12).data.take 2 = ['\n', '.'] := by
    simp only [omittedLine, String.data_append, List.append_assoc]
    rw [List.take_append_of_le_length (by decide)]
    decide
  rw [hser, homit] at hdata
  exact absurd hdata (by decide)

/-- C4 (amended): whenever the truncated serialized content of all but
the last file in size order already exceeds 100000 characters,
`buildUserPrompt` serializes exactly the files before the first budget
overrun — strictly fewer than the hotspot contains, and at least one —
followed by a single omitted-file-count line, and the remaining files are
not serialized at all. -/
theorem C4_amended (h : SecurityHotspot)
    (hbig : 100000 <
      tlSum ((sortBySize h.files).take ((sortBySize h.files).length - 1))) :
    ∃ k, k < (sortBySize h.files).length ∧ 1 ≤ k
      ∧ 100000 < tlSum ((sortBySize h.files).take k)
      ∧ (∀ j, j < k → tlSum ((sortBySize h.files).take j) ≤ 100000)
      ∧ formatParts h.files
          = ((sortBySize h.files).take k).map serializeFile
            ++ [omittedLine (sortBySize h.files).length k]
      ∧ buildUserPrompt h
          = "Analyze these " ++ categoryName h.category
            ++ " files for security vulnerabilities:\n\n"
            ++ String.intercalate "\n"
                (((sortBySize h.files).take k).map serializeFile
                  ++ [omittedLine (sortBySize h.files).length k])
            ++ "\n\nRespond with a JSON object containing your findings." := by
  have hn : 1 ≤ (sortBySize h.files).length := by
    by_contra hn
    have h0 : (sortBySize h.files).length = 0 := by omega
    rw [List.length_eq_zero.mp h0] at hbig
    simp [tlSum] at hbig
  have hex : ∃ k, 100000 < tlSum ((sortBySize h.files).take k) :=
    ⟨(sortBySize h.files).length - 1, hbig⟩
  refine ⟨Nat.find hex, ?_, ?_, Nat.find_spec hex, ?_, ?_, ?_⟩
  · exact lt_of_le_of_lt (Nat.find_min' hex hbig) (by omega)
  · rcases Nat.eq_zero_or_pos (Nat.find hex) with h0 | h1
    · have := Nat.find_spec hex
      rw [h0] at this
      simp [tlSum] at this
    · exact h1
  · intro j hj
    exact Nat.not_lt.mp (Nat.find_min hex hj)
  · rw [formatParts, formatLoop_reaches (sortBySize h.files)
      (sortBySize h.files).length [] 0 (Nat.find hex)
      (lt_of_le_of_lt (Nat.find_min' hex hbig) (by omega))
      (by simpa using Nat.find_spec hex)
      (fun j hj => by simpa using Nat.not_lt.mp (Nat.find_min hex hj))]
    simp
  · rw [buildUserPrompt, formatFilesForPrompt, formatParts,
      formatLoop_reaches (sortBySize h.files)
      (sortBySize h.files).length [] 0 (Nat.find hex)
      (lt_of_le_of_lt (Nat.find_min' hex hbig) (by omega))
      (by simpa using Nat.find_spec hex)
      (fun j hj => by simpa using Nat.not_lt.mp (Nat.find_min hex hj))]
    simp

/-- Witness for the amended C4 at a concrete hotspot: with fourteen
8000-character files the truncated content of the first thirteen already
exceeds the budget, so the loop stops early with an omitted-files
line. -/
theorem C4_amended_witness :
    (100000 <
      tlSum ((sortBySize c4wHotspot.files).take
        ((sortBySize c4wHotspot.files).length - 1)))
    ∧ ∃ k, k < (sortBySize c4wHotspot.files).length ∧ 1 ≤ k
      ∧ 100000 < tlSum ((sortBySize c4wHotspot.files).take k)
      ∧ (∀ j, j < k → tlSum ((sortBySize c4wHotspot.files).take j) ≤ 100000)
      ∧ formatParts c4wHotspot.files
          = ((sortBySize c4wHotspot.files).take k).map serializeFile
            ++ [omittedLine (sortBySize c4wHotspot.files).length k]
      ∧ buildUserPrompt c4wHotspot
          = "Analyze these " ++ categoryName c4wHotspot.category
            ++ " files for security vulnerabilities:\n\n"
            ++ String.intercalate "\n"
                (((sortBySize c4wHotspot.files).take k).map serializeFile
                  ++ [omittedLine (sortBySize c4wHotspot.files).length k])
            ++ "\n\nRespond with a JSON object containing your findings." := by
  have hsorted : sortBySize c4wHotspot.files = List.replicate 14 c4File := by
    rw [show c4wHotspot.files = List.replicate 14 c4File from rfl]
    exact stableSortByRank_replicate _ 14 c4File
  have hbig : 100000 <
      tlSum ((sortBySize c4wHotspot.files).take
        ((sortBySize c4wHotspot.files).length - 1)) := by
    rw [hsorted, List.length_replicate, List.take_replicate,
      tlSum_replicate, truncLen_c4File]
    omega
  exact ⟨hbig, C4_amended c4wHotspot hbig⟩

/-- Boolean membership agrees with propositional membership. -/
lemma contains_eq_mem {α : Type} [DecidableEq α] (a : α) (l : List α) :
    l.contains a = decide (a ∈ l) :=
  List.elem_eq_mem a l

/-- Folding `insertUnique` preserves distinctness and accumulates the
union of elements. -/
lemma insertUnique_foldl_spec :
    ∀ (l acc : List String), acc.Nodup →
      (l.foldl insertUnique acc).Nodup
      ∧ (l.foldl insertUnique acc).toFinset = acc.toFinset ∪ l.toFinset
  | [], acc, h => ⟨h, by simp⟩
  | s :: l, acc, h => by
    rw [List.foldl_cons]
    by_cases hs : acc.contains s
    · have hmem : s ∈ acc := by
        rw [contains_eq_mem] at hs
        exact of_decide_eq_true hs
      have hstep : insertUnique acc s = acc := by simp [insertUnique, hmem]
      rw [hstep]
      refine ⟨(insertUnique_foldl_spec l acc h).1, ?_⟩
      rw [(insertUnique_foldl_spec l acc h).2]
      ext x
      simp only [Finset.mem_union, List.mem_toFinset, List.mem_cons]
      constructor
      · rintro (hx | hx)
        · exact Or.inl hx
        · exact Or.inr (Or.inr hx)
      · rintro (hx | hx | hx)
        · exact Or.inl hx
        · exact Or.inl (hx ▸ hmem)
        · exact Or.inr hx
    · have hsm : s ∉ acc := fun hmem => hs (by
        rw [contains_eq_mem]
        exact decide_eq_true hmem)
      have hstep : insertUnique acc s = acc ++ [s] := by
        simp [insertUnique, hsm]
      rw [hstep]
      have hnd : (acc ++ [s]).Nodup := by
        have hperm : List.Perm (acc ++ [s]) (s :: acc) := by
          simp
        exact hperm.nodup_iff.mpr (List.nodup_cons.mpr ⟨hsm, h⟩)
      refine ⟨(insertUnique_foldl_spec l (acc ++ [s]) hnd).1, ?_⟩
      rw [(insertUnique_foldl_spec l (acc ++ [s]) hnd).2]
      ext x
      simp only [Finset.mem_union, List.mem_toFinset, List.mem_append,
        List.mem_singleton, List.mem_cons]
      tauto

/-- The nested set-building fold of `collectSecurityHotspots` equals the
flat fold over the path list of all hotspot files. -/
lemma countDistinct_flatten :
    ∀ (hs : List SecurityHotspot) (acc : List String),
      hs.foldl (fun a h => h.files.foldl (fun a f => insertUnique a f.path) a) acc
        = ((hs.flatMap fun h => h.files).map fun f => f.path).foldl insertUnique acc
  | [], acc => by simp
  | h :: hs, acc => by
    rw [List.foldl_cons, countDistinct_flatten hs, List.flatMap_cons,
      List.map_append, List.foldl_append]
    simp [List.foldl_map]

/-- C1: `securityRelevantFiles` equals the number of distinct file paths
across all hotspots for every input, and on a concrete input whose file
belongs to two hotspots it differs from the sum of per-hotspot file
counts. -/
theorem C1_distinctCount (files : List ParsedFile) :
    (collectSecurityHotspots files).securityRelevantFiles
      = (((collectSecurityHotspots files).hotspots.flatMap fun h => h.files).map
          fun f => f.path).toFinset.card
    ∧ (collectSecurityHotspots
          [{ path := "auth", content := "req.body", size := 8,
             extension := "" }]).securityRelevantFiles
        ≠ ((collectSecurityHotspots
          [{ path := "auth", content := "req.body", size := 8,
             extension := "" }]).hotspots.map fun h => h.files.length).sum := by
  constructor
  · show countDistinctPaths (collectSecurityHotspots files).hotspots = _
    rw [countDistinctPaths, countDistinct_flatten, ← List.toFinset_card_of_nodup
      (insertUnique_foldl_spec _ [] List.nodup_nil).1,
      (insertUnique_foldl_spec _ [] List.nodup_nil).2]
    simp
  · decide

mutual

/-- Every file emitted by one walker step is inherited or passed the
include check on its own path and size. -/
lemma mem_readEntry : ∀ (e : FsEntry) (pre : String) (files : List ParsedFile)
    (maxFiles : Nat) (f : ParsedFile),
    f ∈ readEntry e pre files maxFiles →
    f ∈ files ∨ shouldIncludeFile f.path f.size = true
  | .file name content size, pre, files, maxFiles, f, h => by
    simp only [readEntry] at h
    split at h
    · next hinc =>
      rcases List.mem_append.mp h with h' | h'
      · exact Or.inl h'
      · right
        rw [List.mem_singleton.mp h']
        exact hinc
    · exact Or.inl h
  | .dir name entries, pre, files, maxFiles, f, h => by
    unfold readEntry at h
    split at h
    · exact Or.inl h
    · exact mem_readEntriesLoop entries (joinRel pre name) files maxFiles f h

/-- Every file emitted by the walker loop is inherited or passed the
include check on its own path and size. -/
lemma mem_readEntriesLoop : ∀ (entries : List FsEntry) (pre : String)
    (files : List ParsedFile) (maxFiles : Nat) (f : ParsedFile),
    f ∈ readEntriesLoop entries pre files maxFiles →
    f ∈ files ∨ shouldIncludeFile f.path f.size = true
  | [], pre, files, maxFiles, f, h => Or.inl h
  | e :: rest, pre, files, maxFiles, f, h => by
    unfold readEntriesLoop at h
    split at h
    · exact Or.inl h
    · rcases mem_readEntriesLoop rest pre (readEntry e pre files maxFiles)
        maxFiles f h with h' | h'
      · exact mem_readEntry e pre files maxFiles f h'
      · exact Or.inr h'

end

/-- C9: `shouldIncludeFile` rejects every file whose basename is a lock
file, regardless of size; hence the recursive directory walk never emits
a file whose basename is a lock file; hence, for a path-rooted scan whose
emitted files have no path containing a lock-file name as a substring,
the detected context reports no lock file and the scan never reaches the
npm audit invocation. -/
theorem C9_lockFilesNeverAudited :
    (∀ (path : String) (size : Nat),
        basenameOf path ∈ lockFileNames → shouldIncludeFile path size = false)
    ∧ (∀ (entries : List FsEntry) (pre : String) (maxFiles : Nat)
        (f : ParsedFile),
        f ∈ readEntriesLoop entries pre [] maxFiles →
        basenameOf f.path ∉ lockFileNames)
    ∧ (∀ (root : FsEntry),
        (∀ f ∈ readFilesFromTree root, pathHasLockSubstr f.path = false) →
        (detectProjectContext (readFilesFromTree root)).hasPackageLock = false
          ∧ scanAuditInvoked ⟨some root, none⟩ = false) := by
  have hskip : ∀ (path : String) (size : Nat),
      basenameOf path ∈ lockFileNames → shouldIncludeFile path size = false := by
    intro path size h
    have hmem : basenameOf path ∈ SKIP_FILES := by
      simp only [lockFileNames, List.mem_cons, List.not_mem_nil, or_false] at h
      rcases h with h | h | h | h <;> rw [h] <;> simp [SKIP_FILES]
    simp [shouldIncludeFile, hmem]
  refine ⟨hskip, ?_, ?_⟩
  · intro entries pre maxFiles f hf hlock
    rcases mem_readEntriesLoop entries pre [] maxFiles f hf with h | h
    · exact absurd h (List.not_mem_nil f)
    · rw [hskip f.path f.size hlock] at h
      exact Bool.false_ne_true h
  · intro root hsub
    have h1 : (detectProjectContext (readFilesFromTree root)).hasPackageLock
        = false := by
      simp only [detectProjectContext]
      rw [List.any_eq_false]
      intro f hf
      have := hsub f hf
      simp only [pathHasLockSubstr, Bool.or_eq_false_iff] at this
      simp [this.1, this.2]
    refine ⟨h1, ?_⟩
    unfold scanAuditInvoked scanFilesChecked scanSourceFiles
    simp only []
    split
    · rfl
    · next fs heq =>
      have hfs : fs = readFilesFromTree root := by
        by_cases hlen : (readFilesFromTree root).length = 0
        · simp [hlen] at heq
        · simp [hlen] at heq
          exact heq.symm
      rw [hfs, h1]
      simp

/-- Witness for C9 at concrete inputs: a lock-file path is rejected by
the include check, the emitted file of a concrete tree is not a lock
file, and a scan of that tree detects no lock file and never reaches the
audit. -/
theorem C9_lockFilesNeverAudited_witness :
    basenameOf "src/package-lock.json" ∈ lockFileNames
    ∧ shouldIncludeFile "src/package-lock.json" 5 = false
    ∧ c9DemoFile ∈ readEntriesLoop [.file "a.ts" "const x = 1" 11] "" [] 500
    ∧ basenameOf c9DemoFile.path ∉ lockFileNames
    ∧ (∀ f ∈ readFilesFromTree c9Tree, pathHasLockSubstr f.path = false)
    ∧ (detectProjectContext (readFilesFromTree c9Tree)).hasPackageLock = false
    ∧ scanAuditInvoked ⟨some c9Tree, none⟩ = false := by
  have h1 : basenameOf "src/package-lock.json" ∈ lockFileNames := by decide
  have h2 : c9DemoFile ∈ readEntriesLoop [.file "a.ts" "const x = 1" 11]
      "" [] 500 := by decide
  have h3 : ∀ f ∈ readFilesFromTree c9Tree, pathHasLockSubstr f.path = false := by
    decide
  refine ⟨h1, C9_lockFilesNeverAudited.1 "src/package-lock.json" 5 h1, h2,
    C9_lockFilesNeverAudited.2.1 [.file "a.ts" "const x = 1" 11] "" 500
      c9DemoFile h2,
    h3, (C9_lockFilesNeverAudited.2.2 c9Tree h3).1,
    (C9_lockFilesNeverAudited.2.2 c9Tree h3).2⟩

/-- Lookup of the pushed category after a push. -/
lemma lookupCat_mapPush_self :
    ∀ (m : HotspotMap) (c : HotspotCategory) (f : ParsedFile),
      lookupCat (mapPush m c f) c = some ((lookupCat m c).getD [] ++ [f])
  | [], c, f => by simp [mapPush, lookupCat]
  | (d, l) :: m, c, f => by
    by_cases h : d = c
    · subst h
      simp [mapPush, lookupCat]
    · simp [mapPush, lookupCat, h, lookupCat_mapPush_self m c f]

/-- Lookup of any other category is unchanged by a push. -/
lemma lookupCat_mapPush_ne :
    ∀ (m : HotspotMap) (c : HotspotCategory) (f : ParsedFile)
      (d : HotspotCategory), d ≠ c →
      lookupCat (mapPush m c f) d = lookupCat m d
  | [], c, f, d, hne => by
    have hne' : ¬ c = d := fun hh => hne hh.symm
    simp [mapPush, lookupCat, hne']
  | (e, l) :: m, c, f, d, hne => by
    by_cases h : e = c
    · subst h
      have hne' : ¬ e = d := fun hh => hne (hh ▸ rfl)
      simp [mapPush, lookupCat, hne']
    · by_cases h2 : e = d
      · subst h2
        simp [mapPush, lookupCat, h]
      · simp [mapPush, lookupCat, h, h2, lookupCat_mapPush_ne m c f d hne]

/-- The keys after a push: unchanged for a known category, appended for a
new one. -/
lemma keys_mapPush :
    ∀ (m : HotspotMap) (c : HotspotCategory) (f : ParsedFile),
      (mapPush m c f).map Prod.fst
        = if c ∈ m.map Prod.fst then m.map Prod.fst
          else m.map Prod.fst ++ [c]
  | [], c, f => by simp [mapPush]
  | (d, l) :: m, c, f => by
    by_cases h : d = c
    · subst h
      simp [mapPush]
    · have hne : ¬ c = d := fun hh => h (hh ▸ rfl)
      simp only [mapPush, if_neg h, List.map_cons, keys_mapPush m c f,
        List.mem_cons]
      by_cases h2 : c ∈ m.map Prod.fst
      · simp [h2, hne]
      · simp [h2, hne]

/-- Lookup after pushing a file onto a distinct set of categories. -/
lemma lookupCat_pushAll (f : ParsedFile) :
    ∀ (cs : List HotspotCategory) (m : HotspotMap) (d : HotspotCategory),
      cs.Nodup →
      lookupCat (pushAll m cs f) d
        = if d ∈ cs then some ((lookupCat m d).getD [] ++ [f])
          else lookupCat m d
  | [], m, d, _ => by simp [pushAll]
  | c :: cs, m, d, hnd => by
    have hc : c ∉ cs := (List.nodup_cons.mp hnd).1
    have hcs : cs.Nodup := (List.nodup_cons.mp hnd).2
    have hstep : pushAll m (c :: cs) f = pushAll (mapPush m c f) cs f := by
      simp [pushAll]
    rw [hstep, lookupCat_pushAll f cs (mapPush m c f) d hcs]
    by_cases hdc : d = c
    · subst hdc
      simp [hc, lookupCat_mapPush_self]
    · by_cases hdcs : d ∈ cs
      · simp [hdcs, lookupCat_mapPush_ne m c f d hdc]
      · have : ¬ d ∈ c :: cs := by simp [hdc, hdcs]
        simp [hdcs, this, lookupCat_mapPush_ne m c f d hdc]

/-- The keys after pushing a file onto a distinct set of categories: the
old keys followed by the new categories in order. -/
lemma keys_pushAll (f : ParsedFile) :
    ∀ (cs : List HotspotCategory) (m : HotspotMap),
      cs.Nodup →
      (pushAll m cs f).map Prod.fst
        = m.map Prod.fst
          ++ cs.filter (fun c => !(m.map Prod.fst).contains c)
  | [], m, _ => by simp [pushAll]
  | c :: cs, m, hnd => by
    have hc : c ∉ cs := (List.nodup_cons.mp hnd).1
    have hcs : cs.Nodup := (List.nodup_cons.mp hnd).2
    have hstep : pushAll m (c :: cs) f = pushAll (mapPush m c f) cs f := by
      simp [pushAll]
    rw [hstep, keys_pushAll f cs (mapPush m c f) hcs, keys_mapPush]
    by_cases hmem : c ∈ m.map Prod.fst
    · rw [if_pos hmem]
      simp [List.filter_cons, hmem]
    · rw [if_neg hmem]
      have hcontains : (m.map Prod.fst).contains c = false := by
        rw [contains_eq_mem]
        exact decide_eq_false hmem
      have hfilter : cs.filter (fun x => !((m.map Prod.fst) ++ [c]).contains x)
          = cs.filter (fun x => !(m.map Prod.fst).contains x) := by
        apply List.filter_congr
        intro x hx
        have hxc : x ≠ c := fun hh => hc (hh ▸ hx)
        rw [contains_eq_mem, contains_eq_mem]
        simp [List.mem_append, hxc]
      rw [hfilter, List.filter_cons, hcontains]
      simp

/-- Lookup fails exactly for absent keys. -/
lemma lookupCat_eq_none :
    ∀ (m : HotspotMap) (d : HotspotCategory),
      lookupCat m d = none ↔ d ∉ m.map Prod.fst
  | [], d => by simp [lookupCat]
  | (e, l) :: m, d => by
    by_cases h : e = d
    · subst h
      simp [lookupCat]
    · have h' : ¬ d = e := fun hh => h hh.symm
      simp [lookupCat, h, lookupCat_eq_none m d, h']

/-- A successful lookup exhibits a map entry. -/
lemma mem_of_lookupCat :
    ∀ (m : HotspotMap) (d : HotspotCategory) (l : List ParsedFile),
      lookupCat m d = some l → (d, l) ∈ m
  | [], d, l, h => by simp [lookupCat] at h
  | (e, l') :: m, d, l, h => by
    by_cases he : e = d
    · subst he
      have h' : l' = l := by simpa [lookupCat] using h
      subst h'
      exact List.mem_cons_self ..
    · simp only [lookupCat, if_neg he] at h
      exact List.mem_cons_of_mem _ (mem_of_lookupCat m d l h)

/-- With distinct keys, every map entry is found by lookup. -/
lemma lookupCat_of_mem :
    ∀ (m : HotspotMap) (d : HotspotCategory) (l : List ParsedFile),
      (m.map Prod.fst).Nodup → (d, l) ∈ m → lookupCat m d = some l
  | [], d, l, _, h => absurd h (List.not_mem_nil _)
  | (e, l') :: m, d, l, hnd, h => by
    rcases List.mem_cons.mp h with h' | h'
    · rw [Prod.mk.injEq] at h'
      rw [← h'.1, ← h'.2]
      simp [lookupCat]
    · have hd : d ∈ m.map Prod.fst :=
        List.mem_map.mpr ⟨(d, l), h', rfl⟩
      have hne : e ≠ d := by
        intro hh
        subst hh
        exact (List.nodup_cons.mp (by simpa using hnd)).1 hd
      simp only [lookupCat, if_neg hne]
      exact lookupCat_of_mem m d l (List.nodup_cons.mp (by simpa using hnd)).2 h'

/-- Buckets decompose over appends. -/
lemma bucketOf_append (c : HotspotCategory) (l₁ l₂ : List ParsedFile) :
    bucketOf c (l₁ ++ l₂) = bucketOf c l₁ ++ bucketOf c l₂ := by
  simp [bucketOf]

/-- A bucket is empty exactly when no file of the scan lands in it. -/
lemma bucketOf_eq_nil (c : HotspotCategory) (l : List ParsedFile) :
    bucketOf c l = [] ↔ ∀ f ∈ l, isHotFor c f = false := by
  rw [bucketOf, List.filter_eq_nil_iff]
  constructor
  · intro h f hf
    exact Bool.not_eq_true _ ▸ (by simpa using h f hf)
  · intro h f hf
    simp [h f hf]

/-- The first-match index ignores a suffix when a match exists in the
prefix. -/
lemma firstHotIdx_append_of_ne_nil (c : HotspotCategory) :
    ∀ (l₁ l₂ : List ParsedFile), bucketOf c l₁ ≠ [] →
      firstHotIdx c (l₁ ++ l₂) = firstHotIdx c l₁
  | [], l₂, h => absurd rfl h
  | f :: l₁, l₂, h => by
    by_cases hf : isHotFor c f
    · simp [firstHotIdx, hf]
    · have hcons : bucketOf c (f :: l₁) = bucketOf c l₁ := by
        simp [bucketOf, List.filter_cons, hf]
      have hb : bucketOf c l₁ ≠ [] := fun hnil => h (by rw [hcons, hnil])
      simp [firstHotIdx, hf, firstHotIdx_append_of_ne_nil c l₁ l₂ hb]

/-- The first-match index is a position of the scan when a match
exists. -/
lemma firstHotIdx_lt_length (c : HotspotCategory) :
    ∀ (l : List ParsedFile), bucketOf c l ≠ [] →
      firstHotIdx c l < l.length
  | [], h => absurd rfl h
  | f :: l, h => by
    by_cases hf : isHotFor c f
    · simp [firstHotIdx, hf]
    · have hcons : bucketOf c (f :: l) = bucketOf c l := by
        simp [bucketOf, List.filter_cons, hf]
      have hb : bucketOf c l ≠ [] := fun hnil => h (by rw [hcons, hnil])
      have := firstHotIdx_lt_length c l hb
      simp only [firstHotIdx, if_neg hf, List.length_cons]
      omega

/-- The first-match index skips a matchless prefix entirely. -/
lemma firstHotIdx_append_of_nil (c : HotspotCategory) :
    ∀ (l₁ l₂ : List ParsedFile), bucketOf c l₁ = [] →
      firstHotIdx c (l₁ ++ l₂) = l₁.length + firstHotIdx c l₂
  | [], l₂, _ => by simp [firstHotIdx]
  | f :: l₁, l₂, h => by
    have hf : isHotFor c f = false := (bucketOf_eq_nil c (f :: l₁)).mp h f
      (List.mem_cons_self ..)
    have hb : bucketOf c l₁ = [] := by
      rw [bucketOf_eq_nil]
      intro g hg
      exact (bucketOf_eq_nil c (f :: l₁)).mp h g (List.mem_cons_of_mem f hg)
    rw [List.cons_append]
    simp only [firstHotIdx, hf, Bool.false_eq_true, if_false]
    rw [firstHotIdx_append_of_nil c l₁ l₂ hb]
    simp only [List.length_cons]
    omega

/-- The accumulating loop of `categorizeFile` is a filter-and-project
over the pattern table. -/
lemma categorizeFile_eq (f : ParsedFile) :
    categorizeFile f
      = (CATEGORY_PATTERNS.filter fun pat => matchesPattern pat f).map
          fun pat => pat.category := by
  suffices h : ∀ (l : List CategoryPattern) (acc : List HotspotCategory),
      l.foldl (fun acc pat => if matchesPattern pat f then acc ++ [pat.category]
        else acc) acc
        = acc ++ (l.filter fun pat => matchesPattern pat f).map
            fun pat => pat.category by
    simpa [categorizeFile, matchesPattern] using h CATEGORY_PATTERNS []
  intro l
  induction l with
  | nil => intro acc; simp
  | cons pat l ih =>
    intro acc
    rw [List.foldl_cons]
    by_cases hq : matchesPattern pat f
    · rw [if_pos hq, ih]
      simp [List.filter_cons, hq]
    · rw [if_neg hq, ih]
      simp [List.filter_cons, hq]

/-- The category table declares each category once. -/
lemma CATEGORY_PATTERNS_nodup :
    (CATEGORY_PATTERNS.map fun pat => pat.category).Nodup := by decide

/-- A file's category list has no duplicates. -/
lemma categorizeFile_nodup (f : ParsedFile) : (categorizeFile f).Nodup := by
  rw [categorizeFile_eq]
  exact CATEGORY_PATTERNS_nodup.sublist
    ((List.filter_sublist CATEGORY_PATTERNS).map fun pat => pat.category)

/-- The four invariants of the collection loop, carried from a processed
prefix across the remaining files: the map holds exactly the non-empty
buckets of the processed files, the skip list holds the skipped paths in
order, the keys are distinct, and the keys are ordered by the index of
their first matching file. -/
lemma collect_foldl_inv :
    ∀ (rest done : List ParsedFile) (m : HotspotMap) (sk : List String),
      (∀ c, lookupCat m c
        = if bucketOf c done = [] then none else some (bucketOf c done)) →
      sk = (done.filter fun f => (shouldSkipFile f).isSome).map
        (fun f => f.path) →
      (m.map Prod.fst).Nodup →
      ((m.map Prod.fst).Pairwise fun c d =>
        firstHotIdx c done ≤ firstHotIdx d done) →
      (∀ c, lookupCat (rest.foldl collectStep (m, sk)).1 c
          = if bucketOf c (done ++ rest) = [] then none
            else some (bucketOf c (done ++ rest)))
      ∧ (rest.foldl collectStep (m, sk)).2
          = ((done ++ rest).filter fun f => (shouldSkipFile f).isSome).map
              (fun f => f.path)
      ∧ ((rest.foldl collectStep (m, sk)).1.map Prod.fst).Nodup
      ∧ (((rest.foldl collectStep (m, sk)).1.map Prod.fst).Pairwise fun c d =>
          firstHotIdx c (done ++ rest) ≤ firstHotIdx d (done ++ rest))
  | [], done, m, sk, hm, hsk, hnd, hord => by
    simpa using ⟨hm, hsk, hnd, hord⟩
  | f :: rest, done, m, sk, hm, hsk, hnd, hord => by
    have hkeysne : ∀ c ∈ m.map Prod.fst, bucketOf c done ≠ [] := by
      intro c hc hnil
      have := hm c
      rw [if_pos hnil] at this
      exact ((lookupCat_eq_none m c).mp this) hc
    rw [List.foldl_cons]
    rcases hskipf : shouldSkipFile f with _ | p
    · -- the file is not skipped: push it onto its categories
      have hstep : collectStep (m, sk) f
          = (pushAll m (categorizeFile f) f, sk) := by
        simp [collectStep, hskipf]
      rw [hstep]
      have hhot : ∀ c, isHotFor c f = (categorizeFile f).contains c := by
        intro c
        simp [isHotFor, hskipf]
      have hnodupcs := categorizeFile_nodup f
      have hbucket : ∀ c, bucketOf c (done ++ [f])
          = bucketOf c done ++ (if c ∈ categorizeFile f then [f] else []) := by
        intro c
        rw [bucketOf_append]
        by_cases hc : c ∈ categorizeFile f
        · have : isHotFor c f = true := by
            rw [hhot c, contains_eq_mem]
            exact decide_eq_true hc
          simp [bucketOf, List.filter_cons, this, hc]
        · have : isHotFor c f = false := by
            rw [hhot c, contains_eq_mem]
            exact decide_eq_false hc
          simp [bucketOf, List.filter_cons, this, hc]
      have hm' : ∀ c, lookupCat (pushAll m (categorizeFile f) f) c
          = if bucketOf c (done ++ [f]) = [] then none
            else some (bucketOf c (done ++ [f])) := by
        intro c
        rw [lookupCat_pushAll f (categorizeFile f) m c hnodupcs, hbucket c]
        by_cases hc : c ∈ categorizeFile f
        · rw [if_pos hc, if_pos hc]
          have hne : bucketOf c done ++ [f] ≠ [] := by simp
          rw [if_neg hne]
          by_cases hb : bucketOf c done = []
          · rw [hm c, if_pos hb, hb]
            simp
          · rw [hm c, if_neg hb]
            simp
        · rw [if_neg hc, if_neg hc, hm c]
          simp
      have hkeys := keys_pushAll f (categorizeFile f) m hnodupcs
      have hnewmem : ∀ c ∈ (categorizeFile f).filter
          (fun c => !(m.map Prod.fst).contains c),
          c ∈ categorizeFile f ∧ c ∉ m.map Prod.fst := by
        intro c hc
        have h1 := List.mem_filter.mp hc
        refine ⟨h1.1, ?_⟩
        intro hmem
        have := h1.2
        rw [contains_eq_mem] at this
        simp [hmem] at this
      have hnd' : ((pushAll m (categorizeFile f) f).map Prod.fst).Nodup := by
        rw [hkeys]
        rw [List.nodup_append]
        refine ⟨hnd, hnodupcs.filter _, ?_⟩
        intro c hc hcf
        exact (hnewmem c hcf).2 hc
      have hidxold : ∀ c ∈ m.map Prod.fst,
          firstHotIdx c (done ++ [f]) = firstHotIdx c done := fun c hc =>
        firstHotIdx_append_of_ne_nil c done [f] (hkeysne c hc)
      have hidxnew : ∀ c ∈ (categorizeFile f).filter
          (fun c => !(m.map Prod.fst).contains c),
          firstHotIdx c (done ++ [f]) = done.length := by
        intro c hc
        have hb : bucketOf c done = [] := by
          by_contra hb
          have := hm c
          rw [if_neg hb] at this
          exact (hnewmem c hc).2
            (List.mem_map.mpr ⟨(c, bucketOf c done), mem_of_lookupCat _ _ _ this, rfl⟩)
        rw [firstHotIdx_append_of_nil c done [f] hb]
        have : isHotFor c f = true := by
          rw [hhot c, contains_eq_mem]
          exact decide_eq_true (hnewmem c hc).1
        simp [firstHotIdx, this]
      have hord' : ((pushAll m (categorizeFile f) f).map Prod.fst).Pairwise
          (fun c d => firstHotIdx c (done ++ [f]) ≤ firstHotIdx d (done ++ [f])) := by
        rw [hkeys, List.pairwise_append]
        refine ⟨hord.imp_of_mem ?_, ?_, ?_⟩
        · intro c d hc hd hle
          rw [hidxold c hc, hidxold d hd]
          exact hle
        · apply List.pairwise_of_forall_mem_list
          intro c hc d hd
          rw [hidxnew c hc, hidxnew d hd]
        · intro c hc d hd
          rw [hidxold c hc, hidxnew d hd]
          exact le_of_lt (firstHotIdx_lt_length c done (hkeysne c hc))
      have hsk' : sk = ((done ++ [f]).filter fun g =>
          (shouldSkipFile g).isSome).map (fun g => g.path) := by
        rw [List.filter_append, hsk]
        have : ([f].filter fun g => (shouldSkipFile g).isSome) = [] := by
          simp [List.filter_cons, hskipf]
        rw [this, List.append_nil]
      have := collect_foldl_inv rest (done ++ [f])
        (pushAll m (categorizeFile f) f) sk hm' hsk' hnd' hord'
      simpa [List.append_assoc] using this
    · -- the file is skipped: record its path
      have hstep : collectStep (m, sk) f = (m, sk ++ [f.path]) := by
        simp [collectStep, hskipf]
      rw [hstep]
      have hhot : ∀ c, isHotFor c f = false := by
        intro c
        simp [isHotFor, hskipf]
      have hbucket : ∀ c, bucketOf c (done ++ [f]) = bucketOf c done := by
        intro c
        rw [bucketOf_append]
        simp [bucketOf, List.filter_cons, hhot c]
      have hm' : ∀ c, lookupCat m c
          = if bucketOf c (done ++ [f]) = [] then none
            else some (bucketOf c (done ++ [f])) := by
        intro c
        rw [hbucket c]
        exact hm c
      have hsk' : sk ++ [f.path] = ((done ++ [f]).filter fun g =>
          (shouldSkipFile g).isSome).map (fun g => g.path) := by
        rw [List.filter_append, hsk, List.map_append]
        have : ([f].filter fun g => (shouldSkipFile g).isSome) = [f] := by
          simp [List.filter_cons, hskipf]
        rw [this]
        simp
      have hord' : ((m.map Prod.fst).Pairwise fun c d =>
          firstHotIdx c (done ++ [f]) ≤ firstHotIdx d (done ++ [f])) := by
        apply hord.imp_of_mem
        intro c d hc hd hle
        rw [firstHotIdx_append_of_ne_nil c done [f] (hkeysne c hc),
          firstHotIdx_append_of_ne_nil d done [f] (hkeysne d hd)]
        exact hle
      have := collect_foldl_inv rest (done ++ [f]) m (sk ++ [f.path])
        hm' hsk' hnd hord'
      simpa [List.append_assoc] using this

/-- The collection loop over a full scan, from the empty state. -/
lemma collect_char (files : List ParsedFile) :
    (∀ c, lookupCat (files.foldl collectStep ([], [])).1 c
        = if bucketOf c files = [] then none else some (bucketOf c files))
    ∧ (files.foldl collectStep ([], [])).2
        = (files.filter fun f => (shouldSkipFile f).isSome).map (fun f => f.path)
    ∧ ((files.foldl collectStep ([], [])).1.map Prod.fst).Nodup
    ∧ (((files.foldl collectStep ([], [])).1.map Prod.fst).Pairwise fun c d =>
        firstHotIdx c files ≤ firstHotIdx d files) := by
  have := collect_foldl_inv files [] [] []
    (by intro c; simp [lookupCat, bucketOf]) rfl (by simp) (by simp)
  simpa using this

/-- Sorting preserves membership. -/
lemma mem_stableSortByRank {α : Type} (rank : α → Nat) (l : List α) (x : α) :
    x ∈ stableSortByRank rank l ↔ x ∈ l :=
  (perm_stableSortByRank rank l).mem_iff

/-- The hotspot list of `collectSecurityHotspots`, unfolded. -/
lemma collect_hotspots_def (files : List ParsedFile) :
    (collectSecurityHotspots files).hotspots
      = stableSortByRank (fun h => priRank h.priority)
          ((files.foldl collectStep ([], [])).1.map mkHotspot) := rfl

/-- The skip list of `collectSecurityHotspots`, unfolded. -/
lemma collect_skipped_def (files : List ParsedFile) :
    (collectSecurityHotspots files).skippedFiles
      = (files.foldl collectStep ([], [])).2 := rfl

/-- A hotspot occurs in the analysis exactly when its category's bucket
is non-empty and it is the hotspot built from that bucket. -/
lemma mem_hotspots_iff (files : List ParsedFile) (h : SecurityHotspot) :
    h ∈ (collectSecurityHotspots files).hotspots
      ↔ bucketOf h.category files ≠ []
        ∧ h = mkHotspot (h.category, bucketOf h.category files) := by
  rw [collect_hotspots_def, mem_stableSortByRank]
  constructor
  · intro hmem
    rcases List.mem_map.mp hmem with ⟨⟨c, l⟩, he, hmk⟩
    have hcat : h.category = c := by rw [← hmk]; rfl
    have hlk : lookupCat (files.foldl collectStep ([], [])).1 c = some l :=
      lookupCat_of_mem _ c l (collect_char files).2.2.1 he
    have := (collect_char files).1 c
    rw [hlk] at this
    by_cases hb : bucketOf c files = []
    · rw [if_pos hb] at this
      exact absurd this (by simp)
    · rw [if_neg hb] at this
      have hval : l = bucketOf c files := Option.some.inj this
      constructor
      · rw [hcat]
        exact hb
      · rw [hcat, ← hval, ← hmk]
    -- the backward direction rebuilds the map entry from the bucket
  · rintro ⟨hb, hmk⟩
    have := (collect_char files).1 h.category
    rw [if_neg hb] at this
    have hmem : (h.category, bucketOf h.category files)
        ∈ (files.foldl collectStep ([], [])).1 :=
      mem_of_lookupCat _ _ _ this
    exact List.mem_map.mpr ⟨(h.category, bucketOf h.category files), hmem, hmk.symm⟩

/-- C2: a skipped file's path is recorded and the file enters no hotspot
regardless of content; every hotspot's file list is exactly the
scan-ordered sublist of files landing in its category; membership in a
hotspot is equivalent to being a scanned, unskipped file matching the
hotspot's category; hotspot categories are pairwise distinct; and every
unskipped file appears in a hotspot for each of its categories. -/
theorem C2_membership (files : List ParsedFile) :
    (∀ f ∈ files, (shouldSkipFile f).isSome →
        f.path ∈ (collectSecurityHotspots files).skippedFiles
        ∧ ∀ h ∈ (collectSecurityHotspots files).hotspots, f ∉ h.files)
    ∧ (∀ h ∈ (collectSecurityHotspots files).hotspots,
        h.files = files.filter (isHotFor h.category)
        ∧ h.files ≠ []
        ∧ h.priority = getCategoryPriority h.category)
    ∧ (∀ h ∈ (collectSecurityHotspots files).hotspots, ∀ f : ParsedFile,
        f ∈ h.files ↔ f ∈ files ∧ isHotFor h.category f = true)
    ∧ ((collectSecurityHotspots files).hotspots.map fun h => h.category).Nodup
    ∧ (∀ f ∈ files, shouldSkipFile f = none →
        ∀ c ∈ categorizeFile f,
          ∃ h ∈ (collectSecurityHotspots files).hotspots,
            h.category = c ∧ f ∈ h.files) := by
  have hfilesOf : ∀ h ∈ (collectSecurityHotspots files).hotspots,
      h.files = files.filter (isHotFor h.category) := by
    intro h hh
    have := ((mem_hotspots_iff files h).mp hh).2
    rw [this]
    rfl
  refine ⟨?_, ?_, ?_, ?_, ?_⟩
  · intro f hf hskip
    constructor
    · rw [collect_skipped_def, (collect_char files).2.1]
      exact List.mem_map.mpr ⟨f, List.mem_filter.mpr ⟨hf, hskip⟩, rfl⟩
    · intro h hh hmemf
      rw [hfilesOf h hh] at hmemf
      have hhot := List.of_mem_filter hmemf
      rw [isHotFor] at hhot
      rcases hs : shouldSkipFile f with _ | p
      · rw [hs] at hskip
        exact absurd hskip (by simp)
      · rw [hs] at hhot
        simp at hhot
  · intro h hh
    refine ⟨hfilesOf h hh, ?_, ?_⟩
    · rw [hfilesOf h hh]
      exact ((mem_hotspots_iff files h).mp hh).1
    · have := ((mem_hotspots_iff files h).mp hh).2
      rw [this]
      rfl
  · intro h hh f
    rw [hfilesOf h hh, List.mem_filter]
  · have hperm := perm_stableSortByRank (fun h => priRank h.priority)
      ((files.foldl collectStep ([], [])).1.map mkHotspot)
    rw [collect_hotspots_def]
    have hnd := (collect_char files).2.2.1
    have hcats : (((files.foldl collectStep ([], [])).1.map mkHotspot).map
        fun h => h.category) = (files.foldl collectStep ([], [])).1.map Prod.fst := by
      rw [List.map_map]
      rfl
    have : ((stableSortByRank (fun h => priRank h.priority)
        ((files.foldl collectStep ([], [])).1.map mkHotspot)).map
          fun h => h.category).Perm
        (((files.foldl collectStep ([], [])).1.map mkHotspot).map
          fun h => h.category) := hperm.map _
    rw [hcats] at this
    exact this.nodup_iff.mpr hnd
  · intro f hf hskip c hc
    have hhot : isHotFor c f = true := by
      rw [isHotFor, hskip]
      simp [contains_eq_mem, hc]
    have hbmem : f ∈ bucketOf c files :=
      List.mem_filter.mpr ⟨hf, hhot⟩
    have hb : bucketOf c files ≠ [] := by
      intro hnil
      rw [hnil] at hbmem
      exact List.not_mem_nil f hbmem
    refine ⟨mkHotspot (c, bucketOf c files), ?_, rfl, hbmem⟩
    rw [mem_hotspots_iff]
    exact ⟨hb, rfl⟩

/-- Witness for C2 at a concrete scan: the documentation file is skipped
by path and recorded, and the authentication file lands in an `auth`
hotspot. -/
theorem C2_membership_witness :
    c2Readme ∈ c2Files
    ∧ (shouldSkipFile c2Readme).isSome = true
    ∧ c2Readme.path ∈ (collectSecurityHotspots c2Files).skippedFiles
    ∧ c2Auth ∈ c2Files
    ∧ (shouldSkipFile c2Auth).isNone = true
    ∧ HotspotCategory.auth ∈ categorizeFile c2Auth
    ∧ ∃ h ∈ (collectSecurityHotspots c2Files).hotspots,
        h.category = .auth ∧ c2Auth ∈ h.files := by
  have h1 : c2Readme ∈ c2Files := by decide
  have h2 : (shouldSkipFile c2Readme).isSome = true := by decide
  have h3 : c2Auth ∈ c2Files := by decide
  have h4 : shouldSkipFile c2Auth = none :=
    Option.isNone_iff_eq_none.mp (by decide)
  have h5 : HotspotCategory.auth ∈ categorizeFile c2Auth := by decide
  exact ⟨h1, h2, ((C2_membership c2Files).1 c2Readme h1 h2).1, h3, by decide,
    h5, (C2_membership c2Files).2.2.2.2 c2Auth h3 h4 .auth h5⟩

/-- C3 counterexample: on a scan whose first file matches only the `api`
category and whose second matches only `auth` (both critical), the
hotspots come out in first-match order `api, auth`, not in the
declaration order of `CATEGORY_PATTERNS` (`auth` before `api`), so the
claimed declaration-order tie-break fails. -/
theorem C3_counterexample :
    ¬ (collectSecurityHotspots
        [{ path := "/api/x", content := "", size := 0, extension := "" },
         { path := "auth", content := "", size := 0, extension := "" }]).hotspots.Pairwise
      (fun a b => priRank a.priority < priRank b.priority
        ∨ (priRank a.priority = priRank b.priority
            ∧ declIdx a.category ≤ declIdx b.category)) := by decide

/-- Membership through rank insertion. -/
lemma mem_insertByRank {α : Type} (rank : α → Nat) (a x : α) :
    ∀ (l : List α), x ∈ insertByRank rank a l ↔ x = a ∨ x ∈ l
  | [] => by simp [insertByRank]
  | b :: bs => by
    unfold insertByRank
    by_cases h : rank a < rank b
    · rw [if_pos h]
      simp [List.mem_cons]
    · rw [if_neg h]
      simp only [List.mem_cons, mem_insertByRank rank a x bs]
      tauto

/-- Inserting an element that the secondary relation places after every
current element preserves rank-then-secondary pairwise ordering. -/
lemma pairwise_insertByRankT {α : Type} (rank : α → Nat) (S : α → α → Prop)
    (a : α) :
    ∀ (l : List α),
      l.Pairwise (fun x y => rank x < rank y ∨ (rank x = rank y ∧ S x y)) →
      (∀ b ∈ l, S b a) →
      (insertByRank rank a l).Pairwise
        (fun x y => rank x < rank y ∨ (rank x = rank y ∧ S x y))
  | [], _, _ => by simp [insertByRank]
  | b :: bs, hp, hS => by
    unfold insertByRank
    by_cases hlt : rank a < rank b
    · rw [if_pos hlt]
      refine List.Pairwise.cons ?_ hp
      intro x hx
      rcases List.mem_cons.mp hx with hxb | hxbs
      · subst hxb
        exact Or.inl hlt
      · have hbx := (List.pairwise_cons.mp hp).1 x hxbs
        rcases hbx with h | h
        · exact Or.inl (by omega)
        · exact Or.inl (by omega)
    · rw [if_neg hlt]
      have hp' := List.pairwise_cons.mp hp
      refine List.Pairwise.cons ?_ (pairwise_insertByRankT rank S a bs hp'.2
        (fun c hc => hS c (List.mem_cons_of_mem _ hc)))
      intro x hx
      rcases (mem_insertByRank rank a x bs).mp hx with hxa | hxbs
      · subst hxa
        by_cases heq : rank b = rank x
        · exact Or.inr ⟨heq, hS b (List.mem_cons_self ..)⟩
        · exact Or.inl (by omega)
      · exact hp'.1 x hxbs

/-- The stable rank sort of a list pairwise-ordered by a secondary
relation is pairwise-ordered by rank with the secondary relation breaking
ties. -/
lemma pairwise_stableSortByRank {α : Type} (rank : α → Nat)
    (S : α → α → Prop) :
    ∀ (l acc : List α),
      acc.Pairwise (fun x y => rank x < rank y ∨ (rank x = rank y ∧ S x y)) →
      l.Pairwise S →
      (∀ b ∈ acc, ∀ x ∈ l, S b x) →
      (l.foldl (fun as a => insertByRank rank a as) acc).Pairwise
        (fun x y => rank x < rank y ∨ (rank x = rank y ∧ S x y))
  | [], acc, hacc, _, _ => hacc
  | a :: l, acc, hacc, hl, hcross => by
    rw [List.foldl_cons]
    refine pairwise_stableSortByRank rank S l (insertByRank rank a acc) ?_ ?_ ?_
    · exact pairwise_insertByRankT rank S a acc hacc
        (fun b hb => hcross b hb a (List.mem_cons_self ..))
    · exact (List.pairwise_cons.mp hl).2
    · intro b hb x hx
      rcases (mem_insertByRank rank a b acc).mp hb with hba | hbacc
      · subst hba
        exact (List.pairwise_cons.mp hl).1 x hx
      · exact hcross b hbacc x (List.mem_cons_of_mem _ hx)

/-- C3 (amended): the hotspots are sorted by priority ascending, and
hotspots of equal priority appear in the order in which their categories
first matched a scanned file (the insertion order of the grouping map),
not in the declaration order of the pattern table. -/
theorem C3_amended (files : List ParsedFile) :
    (collectSecurityHotspots files).hotspots.Pairwise
      (fun a b => priRank a.priority < priRank b.priority
        ∨ (priRank a.priority = priRank b.priority
            ∧ firstHotIdx a.category files ≤ firstHotIdx b.category files)) := by
  rw [collect_hotspots_def]
  have hpre : ((files.foldl collectStep ([], [])).1.map mkHotspot).Pairwise
      (fun h1 h2 =>
        firstHotIdx h1.category files ≤ firstHotIdx h2.category files) := by
    rw [List.pairwise_map]
    have := (collect_char files).2.2.2
    rw [List.pairwise_map] at this
    exact this
  rw [stableSortByRank]
  exact pairwise_stableSortByRank (fun h : SecurityHotspot => priRank h.priority)
    (fun h1 h2 : SecurityHotspot =>
      firstHotIdx h1.category files ≤ firstHotIdx h2.category files)
    _ [] (by simp) hpre (by simp)
